import Mathlib

/-!
A shallow embedding of the core text-processing pipeline of
`src/server.js` (massage-plan generator): the section splitter
`parsePlanText`, the HTML escaper `escapeHtml`, the per-section
renderers, and the document assembler `renderStructuredHtml`.

JavaScript strings are modelled as `List Char`; JavaScript regular
expressions used by the code are modelled either by direct backtracking
functions (for the patterns with capture groups) or by a small
regular-expression engine based on Brzozowski derivatives (for the
boolean intro-phrase tests).
-/

namespace GCPlan

/-- JavaScript strings, modelled as lists of characters. -/
abbrev JStr := List Char

/-- The JavaScript `\s` character class (also the class used by
`String.prototype.trim`/`trimEnd`): ASCII whitespace, NBSP, the Unicode
space separators, line/paragraph separators, and the BOM. -/
def ws (c : Char) : Bool :=
  c = ' ' || c = '\t' || c = '\n' || c = '\r' ||
  c.toNat = 0xb || c.toNat = 0xc || c.toNat = 0xa0 || c.toNat = 0x1680 ||
  (0x2000 ≤ c.toNat && c.toNat ≤ 0x200a) ||
  c.toNat = 0x2028 || c.toNat = 0x2029 || c.toNat = 0x202f ||
  c.toNat = 0x205f || c.toNat = 0x3000 || c.toNat = 0xfeff

/-- JavaScript `String.prototype.trimEnd`. -/
def jsTrimEnd (l : JStr) : JStr := (l.reverse.dropWhile ws).reverse

/-- JavaScript `String.prototype.trim`. -/
def jsTrim (l : JStr) : JStr := jsTrimEnd (l.dropWhile ws)

/-- JavaScript `s.split('\n')`. -/
def splitOnNl : JStr → List JStr
  | [] => [[]]
  | c :: rest =>
    if c = '\n' then [] :: splitOnNl rest
    else
      match splitOnNl rest with
      | [] => [[c]]
      | l :: ls => (c :: l) :: ls

/-- JavaScript `s.split('.')`. -/
def splitOnDot : JStr → List JStr
  | [] => [[]]
  | c :: rest =>
    if c = '.' then [] :: splitOnDot rest
    else
      match splitOnDot rest with
      | [] => [[c]]
      | l :: ls => (c :: l) :: ls

/-- JavaScript `p.isPrefixOf l` on JavaScript strings: `l.startsWith(p)`. -/
def startsWith : JStr → JStr → Bool
  | [], _ => true
  | _ :: _, [] => false
  | p :: ps, c :: cs => p = c && startsWith ps cs

/-- JavaScript `l.includes(p)`: `p` occurs as a contiguous substring. -/
def containsSub (p : JStr) : JStr → Bool
  | [] => startsWith p []
  | c :: rest => startsWith p (c :: rest) || containsSub p rest

/-- Case-insensitive `startsWith` (for regexes with the `i` flag). -/
def startsWithCI : JStr → JStr → Bool
  | [], _ => true
  | _ :: _, [] => false
  | p :: ps, c :: cs => p.toLower = c.toLower && startsWithCI ps cs

/-- JavaScript `s.replace(/c/g, repl)` for a single character `c`. -/
def replaceChar (c : Char) (repl : JStr) : JStr → JStr
  | [] => []
  | d :: rest => (if d = c then repl else [d]) ++ replaceChar c repl rest

/-- JavaScript `text.replace(/\*\*/g, '')`: global left-to-right removal of the
two-character markdown bold marker. -/
def stripBold : JStr → JStr
  | [] => []
  | [c] => [c]
  | c1 :: c2 :: rest =>
    if c1 = '*' && c2 = '*' then stripBold rest
    else c1 :: stripBold (c2 :: rest)

/-- Embedding of `escapeHtml` (src/server.js:292-298): strip `**`, then escape `&`,
`<`, `>` in that order. -/
def escapeHtml (text : JStr) : JStr :=
  replaceChar '>' "&gt;".data
    (replaceChar '<' "&lt;".data
      (replaceChar '&' "&amp;".data
        (stripBold text)))

/-- JavaScript `s.join(' ')`. -/
def joinSpace : List JStr → JStr
  | [] => []
  | [x] => x
  | x :: y :: rest => x ++ ' ' :: joinSpace (y :: rest)

/-- JavaScript `s.join('\n')`. -/
def intercalateNl : List JStr → JStr
  | [] => []
  | [x] => x
  | x :: y :: rest => x ++ '\n' :: intercalateNl (y :: rest)

/-! ### A small regular-expression engine (Brzozowski derivatives)

Used to model the boolean (`.test`) regular expressions of the source:
the `INTRO_PHRASE_PATTERNS` of src/server.js:354-362. -/

/-- Regular expressions over characters. -/
inductive Reg where
  | emp : Reg
  | eps : Reg
  | cls (p : Char → Bool) : Reg
  | seq (a b : Reg) : Reg
  | alt (a b : Reg) : Reg
  | star (a : Reg) : Reg

/-- Smart sequencing (keeps derivatives small). -/
def rseq : Reg → Reg → Reg
  | .emp, _ => .emp
  | _, .emp => .emp
  | .eps, b => b
  | a, .eps => a
  | a, b => .seq a b

/-- Smart alternation (keeps derivatives small). -/
def ralt : Reg → Reg → Reg
  | .emp, b => b
  | a, .emp => a
  | a, b => .alt a b

/-- Does the regex accept the empty string? -/
def nullable : Reg → Bool
  | .emp => false
  | .eps => true
  | .cls _ => false
  | .seq a b => nullable a && nullable b
  | .alt a b => nullable a || nullable b
  | .star _ => true

/-- Brzozowski derivative with respect to one character. -/
def derivR : Reg → Char → Reg
  | .emp, _ => .emp
  | .eps, _ => .emp
  | .cls p, c => if p c then .eps else .emp
  | .seq a b, c =>
    if nullable a then ralt (rseq (derivR a c) b) (derivR b c)
    else rseq (derivR a c) b
  | .alt a b, c => ralt (derivR a c) (derivR b c)
  | .star a, c => rseq (derivR a c) (.star a)

/-- Embedding of `/^r$/.test(s)`: the whole string matches. -/
def matchFull (r : Reg) (s : JStr) : Bool :=
  nullable (s.foldl derivR r)

/-- Embedding of `/^r/.test(s)`: some prefix of the string matches. -/
def matchPre : Reg → JStr → Bool
  | r, [] => nullable r
  | r, c :: cs => nullable r || matchPre (derivR r c) cs

/-- Regex `r?` -/
def rOpt (a : Reg) : Reg := .alt a .eps

/-- A case-insensitive literal (each pattern carries the `i` flag). -/
def litCI (s : String) : Reg :=
  s.data.foldr (fun c r => .seq (.cls (fun d => d.toLower = c.toLower)) r) .eps

/-- Sequencing of a list of regexes. -/
def seqL (rs : List Reg) : Reg := rs.foldr .seq .eps

/-- Regex class `\s` -/
def wsC : Reg := .cls ws

/-- Regex `\s*` -/
def wsStar : Reg := .star wsC

/-- Regex `\s+` -/
def wsPlus : Reg := .seq wsC wsStar

/-! The seven `INTRO_PHRASE_PATTERNS` (src/server.js:354-362),
transcribed one regex construct at a time. -/

/-- Intro pattern 1: anchored, case-insensitive `here`, then `is` or
apostrophe-s, optional `your`/`personalized`/`treatment`/`massage`/
`therapy` words, then `plan` with optional colon and period. -/
def introPat1 : Reg :=
  seqL [litCI "here", wsStar, .alt (litCI "is") (litCI "\x27s"), wsStar,
    rOpt (litCI "your"), wsStar, rOpt (litCI "personalized"), wsStar,
    rOpt (.alt (litCI "treatment") (litCI "massage")), wsStar,
    rOpt (litCI "therapy"), wsStar, litCI "plan", rOpt (litCI ":"),
    rOpt (litCI ".")]

/-- Intro pattern 2: `/^this\s+is\s+(your)?\s*(personalized)?\s*(treatment|massage)?\s*(therapy)?\s*plan:?\.?$/i` -/
def introPat2 : Reg :=
  seqL [litCI "this", wsPlus, litCI "is", wsPlus,
    rOpt (litCI "your"), wsStar, rOpt (litCI "personalized"), wsStar,
    rOpt (.alt (litCI "treatment") (litCI "massage")), wsStar,
    rOpt (litCI "therapy"), wsStar, litCI "plan", rOpt (litCI ":"),
    rOpt (litCI ".")]

/-- Intro pattern 3: `/^(your)?\s*(personalized)?\s*(treatment|massage)?\s*(therapy)?\s*plan:?\.?$/i` -/
def introPat3 : Reg :=
  seqL [rOpt (litCI "your"), wsStar, rOpt (litCI "personalized"), wsStar,
    rOpt (.alt (litCI "treatment") (litCI "massage")), wsStar,
    rOpt (litCI "therapy"), wsStar, litCI "plan", rOpt (litCI ":"),
    rOpt (litCI ".")]

/-- Intro pattern 4: `/^below\s+(is|are)\s+(your)?\s*(personalized)?\s*(treatment|massage)?\s*plan:?\.?$/i` -/
def introPat4 : Reg :=
  seqL [litCI "below", wsPlus, .alt (litCI "is") (litCI "are"), wsPlus,
    rOpt (litCI "your"), wsStar, rOpt (litCI "personalized"), wsStar,
    rOpt (.alt (litCI "treatment") (litCI "massage")), wsStar,
    litCI "plan", rOpt (litCI ":"), rOpt (litCI ".")]

/-- Intro pattern 5: case-insensitive `i`, then apostrophe-ve or
` have`, then `created`/`prepared`/`developed`, `a` or `your`, optional
`personalized`/`treatment`/`massage` words, then `plan` (unanchored at
the end: a prefix match). -/
def introPat5 : Reg :=
  seqL [litCI "i",
    .alt (litCI "\x27ve") (.alt (litCI "\x27ve") (litCI " have")), wsPlus,
    .alt (litCI "created") (.alt (litCI "prepared") (litCI "developed")),
    wsPlus, .alt (litCI "a") (litCI "your"), wsStar,
    rOpt (litCI "personalized"), wsStar,
    rOpt (.alt (litCI "treatment") (litCI "massage")), wsStar, litCI "plan"]

/-- Intro pattern 6: `/^based\s+on\s+(your|the)\s+(case\s+note|assessment|session)/i`
(unanchored at the end: a prefix match). -/
def introPat6 : Reg :=
  seqL [litCI "based", wsPlus, litCI "on", wsPlus,
    .alt (litCI "your") (litCI "the"), wsPlus,
    .alt (seqL [litCI "case", wsPlus, litCI "note"])
      (.alt (litCI "assessment") (litCI "session"))]

/-- Intro pattern 7: anchored, case-insensitive `here`, then
apostrophe-s or ` is`, then `your plan` with optional colon and
period. -/
def introPat7 : Reg :=
  seqL [litCI "here", .alt (litCI "\x27s") (litCI " is"), wsPlus,
    litCI "your", wsPlus, litCI "plan", rOpt (litCI ":"), rOpt (litCI ".")]

/-- Embedding of `isIntroPhrase` (src/server.js:364-367): the trimmed line matches one
of the canned intro-phrase patterns. -/
def isIntroPhrase (line : JStr) : Bool :=
  let t := jsTrim line
  matchFull introPat1 t || matchFull introPat2 t || matchFull introPat3 t ||
  matchFull introPat4 t || matchPre introPat5 t || matchPre introPat6 t ||
  matchFull introPat7 t

/-! ### The section splitter `parsePlanText` (src/server.js:369-457) -/

/-- The `.` regex metacharacter: any character except a line terminator. -/
def isDotChar (c : Char) : Bool :=
  !(c = '\n' || c = '\r' || c.toNat = 0x2028 || c.toNat = 0x2029)

/-- The `\s*(.+)$` tail of the header pattern, with the backtracking of
the greedy `\s*`: consume as much whitespace as possible, then require at
least one character and that every remaining character be matched by `.`;
on failure give one whitespace character back and retry. Returns the
`(.+)` capture. -/
def matchWsDotPlus : JStr → Option JStr
  | [] => none
  | c :: rest =>
    if ws c then
      match matchWsDotPlus rest with
      | some cap => some cap
      | none =>
        if (c :: rest).all isDotChar then some (c :: rest) else none
    else
      if (c :: rest).all isDotChar then some (c :: rest) else none

/-- Embedding of `line.match(/^\s*(\d)\.\s*(.+)$/)` (src/server.js:377): on success
returns the digit capture and the `(.+)` capture. -/
def matchHeader (line : JStr) : Option (Char × JStr) :=
  match line.dropWhile ws with
  | d :: '.' :: tail =>
    if d.isDigit then (matchWsDotPlus tail).map (fun cap => (d, cap))
    else none
  | _ => none

/-- One parsed section (the object literals built in `parsePlanText`).
The JavaScript objects carry an `isOrphaned: true` field only on the
synthetic section; it is modelled as a `Bool` that is `false` elsewhere. -/
structure PlanSection where
  number : JStr
  title : JStr
  description : JStr
  lines : List JStr
  isOrphaned : Bool
deriving DecidableEq

/-- JavaScript `fullContent.indexOf(':')`. -/
def indexOfColon : JStr → Option Nat
  | [] => none
  | c :: rest =>
    if c = ':' then some 0 else (indexOfColon rest).map (· + 1)

/-- The title/description split of the content of a header
(src/server.js:404-411): split at the first colon when its index is
positive, trimming both halves. -/
def splitTitleDesc (fullContent : JStr) : JStr × JStr :=
  match indexOfColon fullContent with
  | some i =>
    if 0 < i then
      (jsTrim (fullContent.take i), jsTrim (fullContent.drop (i + 1)))
    else (fullContent, [])
  | none => (fullContent, [])

/-- Turning the orphaned-line buffer into a synthetic section
(src/server.js:382-395 and 441-452): drop blank and intro-phrase lines;
if anything remains, emit the `Additional Notes` section. -/
def finalizeOrphaned (orphanedLines : List JStr) : List PlanSection :=
  let meaningfulLines :=
    orphanedLines.filter (fun l => 0 < (jsTrim l).length && !isIntroPhrase l)
  if 0 < meaningfulLines.length then
    [{ number := ['0'], title := "Additional Notes".data, description := [],
       lines := meaningfulLines, isOrphaned := true }]
  else []

/-- The loop state of `parsePlanText`: the finished sections, the section
being accumulated, and the pre-header orphaned buffer. -/
structure ParseState where
  sections : List PlanSection
  current : Option PlanSection
  orphaned : List JStr
deriving DecidableEq

/-- One iteration of the `for (const rawLine of lines)` loop of
`parsePlanText` (src/server.js:375-437). -/
def parseStep (st : ParseState) (rawLine : JStr) : ParseState :=
  let line := jsTrimEnd rawLine
  match matchHeader line with
  | some (d, cap) =>
    let st1 :=
      if 0 < st.orphaned.length && st.current = none then
        { st with sections := st.sections ++ finalizeOrphaned st.orphaned,
                  orphaned := [] }
      else st
    let fullContent := jsTrim cap
    let td := splitTitleDesc fullContent
    { sections := st1.sections ++ st1.current.toList,
      current := some
        { number := [d], title := td.1, description := td.2,
          lines := if 0 < td.2.length then [td.2] else [],
          isOrphaned := false },
      orphaned := st1.orphaned }
  | none =>
    match st.current with
    | some c =>
      { st with current := some { c with lines := c.lines ++ [line] } }
    | none =>
      if 0 < (jsTrim line).length then
        { st with orphaned := st.orphaned ++ [line] }
      else st

/-- The epilogue of `parsePlanText` (src/server.js:439-456): flush a
trailing orphaned buffer, then the in-progress section. -/
def parseFinish (st : ParseState) : List PlanSection :=
  st.sections ++
    (if 0 < st.orphaned.length then finalizeOrphaned st.orphaned else []) ++
    st.current.toList

/-- Embedding of `parsePlanText` (src/server.js:369-457). -/
def parsePlanText (planText : JStr) : List PlanSection :=
  parseFinish ((splitOnNl planText).foldl parseStep ⟨[], none, []⟩)

/-! ### Goals / Key Actions renderers (src/server.js:459-581)

Both renderers begin with the same candidate-collection loop and the same
sentence fallback; they differ in the list tag and in the indentation of
the two template literals. -/

/-- The candidate-collection loop shared by `renderGoalsSection`
(src/server.js:463-468) and `renderKeyActionsSection`
(src/server.js:525-530): keep each trimmed line that is non-empty and
starts with neither `"` nor `*`. -/
def candidateLines (ls : List JStr) : List JStr :=
  ls.filterMap (fun line =>
    let t := jsTrim line
    if 0 < t.length && !startsWith ['"'] t && !startsWith ['*'] t then
      some t
    else none)

/-- JavaScript `cleanSentence.replace(/^[,\s]+|[,\s]+$/g, '')`: strip leading and
trailing runs of commas and whitespace. -/
def cleanEdges (l : JStr) : JStr :=
  ((l.dropWhile (fun c => c = ',' || ws c)).reverse.dropWhile
    (fun c => c = ',' || ws c)).reverse

/-- The sentence fallback shared by both renderers
(src/server.js:486-507 and 548-569): split the joined text on periods,
drop blank fragments, then per fragment trim, drop it if it still holds
an asterisk, clean comma/whitespace edges, and keep it if non-empty. -/
def sentenceItems (allText : JStr) : List JStr :=
  let sentences := (splitOnDot allText).filter (fun s => 0 < (jsTrim s).length)
  sentences.filterMap (fun sentence =>
    let cleanSentence := jsTrim sentence
    if 0 < cleanSentence.length && !containsSub ['*'] cleanSentence then
      let finalSentence := cleanEdges cleanSentence
      if 0 < finalSentence.length then some finalSentence else none
    else none)

/-- JavaScript map of `items` to li elements wrapping the escaped
item text, joined with the empty separator. -/
def liJoin (items : List JStr) : JStr :=
  (items.map (fun it => "<li>".data ++ escapeHtml it ++ "</li>".data)).flatten

/-- The template literal used on the `length >= 3` path of both
renderers (src/server.js:478-483 and 540-545); `listOpen`/`listClose`
are `<ul>`/`</ul>` for Goals and `<ol>`/`</ol>` for Key Actions. -/
def listSectionHtmlA (num title listOpen listClose inner : JStr) : JStr :=
  "\n      <section class=\"section\">\n        <h2><span class=\"num\">".data
    ++ num ++ ".</span> ".data ++ escapeHtml title
    ++ "</h2>\n        ".data ++ listOpen ++ inner ++ listClose
    ++ "\n      </section>\n    ".data

/-- The template literal used on the fallback path of both renderers
(src/server.js:513-518 and 575-580); it is indented two columns less
than the other template. -/
def listSectionHtmlB (num title listOpen listClose inner : JStr) : JStr :=
  "\n    <section class=\"section\">\n      <h2><span class=\"num\">".data
    ++ num ++ ".</span> ".data ++ escapeHtml title
    ++ "</h2>\n      ".data ++ listOpen ++ inner ++ listClose
    ++ "\n    </section>\n  ".data

/-- Embedding of `renderGoalsSection` (src/server.js:459-519). -/
def renderGoalsSection (sec : PlanSection) : JStr :=
  let goals := candidateLines sec.lines
  if 3 ≤ goals.length then
    let finalGoals := (goals.take 3).filter (fun goal => 0 < goal.length)
    listSectionHtmlA sec.number sec.title "<ul>".data "</ul>".data
      (liJoin finalGoals)
  else
    let goals2 :=
      if 0 < goals.length then sentenceItems (joinSpace goals) else goals
    listSectionHtmlB sec.number sec.title "<ul>".data "</ul>".data
      (liJoin goals2)

/-- Embedding of `renderKeyActionsSection` (src/server.js:521-581). -/
def renderKeyActionsSection (sec : PlanSection) : JStr :=
  let actions := candidateLines sec.lines
  if 3 ≤ actions.length then
    let finalActions := (actions.take 3).filter (fun a => 0 < a.length)
    listSectionHtmlA sec.number sec.title "<ol>".data "</ol>".data
      (liJoin finalActions)
  else
    let actions2 :=
      if 0 < actions.length then sentenceItems (joinSpace actions)
      else actions
    listSectionHtmlB sec.number sec.title "<ol>".data "</ol>".data
      (liJoin actions2)

/-! ### Treatment-plan renderer (src/server.js:583-663) -/

/-- One treatment phase (built only inside the renderer). -/
structure Phase where
  title : JStr
  subtitle : JStr
  content : List JStr
  recommended : JStr
deriving DecidableEq

/-- The tail `\*?\*?\s*\(([^)]+)\)` of the phase-header pattern, applied
after the first capture group: greedily take up to two asterisks, then
whitespace, a literal `(`, a non-empty run without `)` (the subtitle
capture), and the closing `)`. Each greedy piece here needs no
backtracking: an unconsumed `*` could never satisfy the following
`\s*\(`, whitespace never satisfies `\(`, and a shorter `[^)]+` capture
would leave a non-`)` character before the required `)`. -/
def phaseTail (rest : JStr) : Option JStr :=
  let r1 := match rest with | '*' :: r => r | _ => rest
  let r2 := match r1 with | '*' :: r => r | _ => r1
  match r2.dropWhile ws with
  | '(' :: r4 =>
    let cap2 := r4.takeWhile (fun c => !(c = ')'))
    if 0 < cap2.length then
      match r4.drop cap2.length with
      | ')' :: _ => some cap2
      | _ => none
    else none
  | _ => none

/-- Greedy backtracking for the `([^*]+)` capture group: `takenRev` is
the reversed candidate capture (longest first); shrink it one character
at a time until `phaseTail` succeeds on the remainder. -/
def capLoop : JStr → JStr → Option (JStr × JStr)
  | [], _ => none
  | c :: tr, rest =>
    match phaseTail rest with
    | some cap2 => some ((c :: tr).reverse, cap2)
    | none => capLoop tr (c :: rest)

/-- Regex `\*?\*?([^*]+)\*?\*?\s*\(([^)]+)\)` anchored at the current
position: strip up to two leading asterisks (forced, since `[^*]` cannot
match them), then the maximal asterisk-free run feeds `capLoop`. -/
def phaseMatchAt (s : JStr) : Option (JStr × JStr) :=
  let s1 := match s with | '*' :: r => r | _ => s
  let s2 := match s1 with | '*' :: r => r | _ => s1
  let run := s2.takeWhile (fun c => !(c = '*'))
  capLoop run.reverse (s2.drop run.length)

/-- JavaScript `trimmedLine.match(/\*?\*?([^*]+)\*?\*?\s*\(([^)]+)\)/)`
(src/server.js:599): the leftmost match, returning both captures. -/
def phaseHeaderMatch : JStr → Option (JStr × JStr)
  | [] => none
  | c :: rest =>
    match phaseMatchAt (c :: rest) with
    | some r => some r
    | none => phaseHeaderMatch rest

/-- JavaScript `trimmedLine.replace(/\*+/g, '')`: remove every asterisk. -/
def stripStars (l : JStr) : JStr := l.filter (fun c => !(c = '*'))

/-- Regex `\s*(.+)` without an end anchor (the tail of the `Recommended:`
pattern): greedy whitespace, then a maximal non-empty run of `.`-matching
characters; on failure give back one whitespace character. -/
def matchWsDotPlusFree : JStr → Option JStr
  | [] => none
  | c :: rest =>
    if ws c then
      match matchWsDotPlusFree rest with
      | some cap => some cap
      | none =>
        if isDotChar c then some ((c :: rest).takeWhile isDotChar) else none
    else
      if isDotChar c then some ((c :: rest).takeWhile isDotChar) else none

/-- JavaScript `trimmedLine.match(/^Recommended:\s*(.+)/i)` (src/server.js:617). -/
def recommendedMatch (t : JStr) : Option JStr :=
  if startsWithCI "Recommended:".data t then
    matchWsDotPlusFree (t.drop 12)
  else none

/-- The substring tests selecting a phase-header line
(src/server.js:592). -/
def isPhaseHeaderLine (t : JStr) : Bool :=
  containsSub "Getting You Comfortable".data t ||
  containsSub "Keeping You at Your Best".data t

/-- One iteration of the phase-collection loop of
`renderTreatmentPlanSection` (src/server.js:588-625); the state is the
finished phases and the in-progress phase. -/
def tpStep (st : List Phase × Option Phase) (line : JStr) :
    List Phase × Option Phase :=
  let trimmedLine := jsTrim line
  if isPhaseHeaderLine trimmedLine then
    let phases := st.1 ++ st.2.toList
    match phaseHeaderMatch trimmedLine with
    | some caps =>
      (phases, some ⟨jsTrim caps.1, jsTrim caps.2, [], []⟩)
    | none =>
      (phases, some ⟨jsTrim (stripStars trimmedLine), [], [], []⟩)
  else
    match st.2 with
    | some currentPhase =>
      match recommendedMatch trimmedLine with
      | some cap =>
        (st.1, some { currentPhase with recommended := jsTrim cap })
      | none =>
        if 0 < trimmedLine.length && !startsWith "**".data trimmedLine then
          (st.1, some { currentPhase with
            content := currentPhase.content ++ [trimmedLine] })
        else st
    | none => st

/-- The phases collected from the lines of a Treatment Plan section
(src/server.js:585-629). -/
def tpPhases (ls : List JStr) : List Phase :=
  let st := ls.foldl tpStep ([], none)
  st.1 ++ st.2.toList

/-- The opening of the treatment-plan section template
(src/server.js:632-635). -/
def tpOpenHtml (num title : JStr) : JStr :=
  "\n    <section class=\"section treatment-plan-section\">\n      <h2><span class=\"num\">".data
    ++ num ++ ".</span> ".data ++ escapeHtml title ++ "</h2>\n  ".data

/-- One phase card (src/server.js:637-656). -/
def phaseCardHtml (phase : Phase) : JStr :=
  let contentText := jsTrim (joinSpace phase.content)
  "\n      <div class=\"treatment-phase-card\">\n        <div class=\"treatment-phase-header\">\n          <span class=\"treatment-phase-title\">".data
    ++ escapeHtml phase.title ++ "</span>\n          ".data
    ++ (if 0 < phase.subtitle.length then
          "<span class=\"treatment-phase-subtitle\">(".data
            ++ escapeHtml phase.subtitle ++ ")</span>".data
        else [])
    ++ "\n        </div>\n        <div class=\"treatment-phase-content\">\n          <p>".data
    ++ escapeHtml contentText
    ++ "</p>\n        </div>\n        ".data
    ++ (if 0 < phase.recommended.length then
          "\n        <div class=\"treatment-phase-recommended\">\n          <strong>Recommended:</strong> ".data
            ++ escapeHtml phase.recommended ++ "\n        </div>\n        ".data
        else [])
    ++ "\n      </div>\n    ".data

/-- The closing of the treatment-plan section template
(src/server.js:658-660). -/
def tpCloseHtml : JStr := "\n    </section>\n  ".data

/-- Embedding of `renderTreatmentPlanSection` (src/server.js:583-663). -/
def renderTreatmentPlanSection (sec : PlanSection) : JStr :=
  tpOpenHtml sec.number sec.title
    ++ ((tpPhases sec.lines).map phaseCardHtml).flatten
    ++ tpCloseHtml

/-! ### Generic / orphaned section rendering and the document assembler
(src/server.js:665-929) -/

/-- The bullet-marker pattern `/^\s*[-*•]\s+/` (src/server.js:697,
735): on a match, return the line with the matched prefix removed (the
`replace` of src/server.js:698, 736). -/
def bulletStrip (l : JStr) : Option JStr :=
  match l.dropWhile ws with
  | c :: rest =>
    if (c = '-' || c = '*' || c = '•') && (match rest with
        | r :: _ => ws r
        | [] => false) then
      some (rest.dropWhile ws)
    else none
  | [] => none

/-- One iteration of the paragraph/bullet walk shared by the orphaned
branch (src/server.js:696-707) and the generic branch
(src/server.js:734-745): state is `(items, bullets)`. -/
def bwStep (st : List JStr × List JStr) (l : JStr) : List JStr × List JStr :=
  match bulletStrip l with
  | some stripped =>
    (st.1, st.2 ++ ["<li>".data ++ escapeHtml stripped ++ "</li>".data])
  | none =>
    if 0 < (jsTrim l).length then
      let items :=
        if 0 < st.2.length then
          st.1 ++ ["<ul>".data ++ st.2.flatten ++ "</ul>".data]
        else st.1
      (items ++ ["<p>".data ++ escapeHtml l ++ "</p>".data], [])
    else st

/-- The paragraph/bullet items of the lines of a section, with a trailing
flush of any open bullet list. -/
def bulletItems (ls : List JStr) : List JStr :=
  let st := ls.foldl bwStep ([], [])
  st.1 ++
    (if 0 < st.2.length then ["<ul>".data ++ st.2.flatten ++ "</ul>".data]
     else [])

/-- The orphaned-section template (src/server.js:711-716). -/
def renderOrphanedSection (sec : PlanSection) : JStr :=
  "\n        <section class=\"section orphaned-section\">\n          <h2>".data
    ++ escapeHtml sec.title ++ "</h2>\n          ".data
    ++ intercalateNl (bulletItems sec.lines)
    ++ "\n        </section>\n      ".data

/-- The generic-section template (src/server.js:749-754). -/
def renderGenericSection (sec : PlanSection) : JStr :=
  "\n      <section class=\"section\">\n        <h2><span class=\"num\">".data
    ++ sec.number ++ ".</span> ".data ++ escapeHtml sec.title
    ++ "</h2>\n        ".data
    ++ intercalateNl (bulletItems sec.lines)
    ++ "\n      </section>\n    ".data

/-- The per-section dispatch of the `sections.map` callback
(src/server.js:688-755). -/
def renderSection (sec : PlanSection) : JStr :=
  if sec.isOrphaned then renderOrphanedSection sec
  else if sec.number = "5".data && containsSub "Treatment Plan".data sec.title
    then renderTreatmentPlanSection sec
  else if sec.number = "3".data && containsSub "Goals".data sec.title
    then renderGoalsSection sec
  else if sec.number = "4".data && containsSub "Key Actions".data sec.title
    then renderKeyActionsSection sec
  else renderGenericSection sec

/-- Embedding of `THERAPIST_BOOKING_URLS` (src/server.js:25-34). -/
def bookingUrls : List (JStr × JStr) :=
  [("Amanda O\x27Dempsey".data, "https://mygcphysio.bookings.pracsuite.com/?p=4819".data),
   ("Elle Badrak".data, "https://mygcphysio.bookings.pracsuite.com/?p=530".data),
   ("Frederic Impens".data, "https://mygcphysio.bookings.pracsuite.com/?p=534".data),
   ("Katie Harders".data, "https://mygcphysio.bookings.pracsuite.com/?p=533".data),
   ("Nicole Grimshaw".data, "https://mygcphysio.bookings.pracsuite.com/?p=2179".data),
   ("Payton Windsor".data, "https://mygcphysio.bookings.pracsuite.com/?p=4522".data),
   ("Sarah Allcock".data, "https://mygcphysio.bookings.pracsuite.com/?p=5446".data),
   ("Trent Ousby".data, "https://mygcphysio.bookings.pracsuite.com/?p=2410".data)]

/-- JavaScript lookup `THERAPIST_BOOKING_URLS[therapistName]`. -/
def lookupBooking (name : JStr) : Option JStr :=
  (bookingUrls.find? (fun p => p.1 = name)).map (fun p => p.2)

/-- The QR block template (src/server.js:675-684). -/
def qrTemplate (bookingUrl therapistName qrCodeDataUrl : JStr) : JStr :=
  "\n        <div class=\"qr-code-container\">\n          <div class=\"qr-code-label\">\n            <a href=\"".data
    ++ bookingUrl
    ++ "\" target=\"_blank\" class=\"booking-link\">Book with ".data
    ++ therapistName
    ++ "</a>\n          </div>\n          <div class=\"qr-code-wrapper\">\n            <img src=\"".data
    ++ qrCodeDataUrl ++ "\" alt=\"QR Code for ".data ++ therapistName
    ++ "\" class=\"qr-code\" />\n          </div>\n        </div>\n      ".data

/-- The QR-block computation of src/server.js:670-686. The external QR
image generator (`generateQRCodeDataURL`, which may fail) is passed in
as the abstract function `qrGen`. -/
def qrBlockHtml (therapistName : JStr) (qrGen : JStr → Option JStr) : JStr :=
  if 0 < therapistName.length then
    match lookupBooking therapistName with
    | some bookingUrl =>
      match qrGen bookingUrl with
      | some dataUrl => qrTemplate bookingUrl therapistName dataUrl
      | none => []
    | none => []
  else []

/-! The static segments of the page-shell template literal
(src/server.js:757-928), transcribed byte for byte. -/

def docSegA : JStr := "<!doctype html>\n<html>\n  <head>\n    <meta charset=\"utf-8\" />\n    <meta name=\"viewport\" content=\"width=device-width, initial-scale=1\" />\n    <title>Gold Coast Physio & Sports Health - Massage Treatment Plan for ".data

def docSegBp0 : JStr := "</title>\n    <link rel=\"preconnect\" href=\"https://fonts.googleapis.com\">\n    <link rel=\"preconnect\" href=\"https://fonts.gstatic.com\" crossorigin>\n    <link href=\"https://fonts.googleapis.com/css2?family=Inter:wght@400;500;600;700&display=swap\" rel=\"stylesheet\">\n    <style>\n      :root \x7b --blue: #3A71DA; --orange: #FF7300; --text: #1F2937; --muted: #6B7280; \x7d\n      body \x7b font-family: \x27Inter\x27, system-ui, -apple-system, Segoe UI, Roboto, Arial, sans-serif; color: var(--text); margin: 0; background: #F7FAFF; \x7d\n      .page \x7b max-width: 860px; margin: 32px auto; background: #fff; box-shadow: 0 10px 30px rgba(0,0,0,0.07); border-radius: 16px; overflow: hidden; \x7d\n      header \x7b display: flex; align-items: center; gap: 16px; padding: 20px 24px; background: linear-gradient(180deg, #EEF4FF 0%, #ffffff 100%); border-bottom: 1px solid #E5E7EB; \x7d\n      header img \x7b height: 56px; \x7d\n      header .title \x7b flex: 1; \x7d\n      h1 \x7b margin: 0; font-size: 22px; color: var(--blue); letter-spacing: 0.2px; \x7d\n      .patient-info \x7b color: var(--muted); font-size: 13px; margin-top: 4px; \x7d\n      main \x7b padding: 28px 24px 36px; \x7d\n      .section \x7b margin-bottom: 18px; \x7d\n      .section h2 \x7b display: flex; align-items: center; gap: 8px; color: var(--blue); font-size: 16px; margin: 18px 0 8px; border-left: 4px solid var(--orange); padding-left: 10px; \x7d\n      .section p, .section li \x7b line-height: 1.55; font-size: 14px; \x7d\n      .section ul, .section ol \x7b margin: 8px 0 8px 20px; \x7d\n      .section ol \x7b counter-reset: item; \x7d\n      .section ol li \x7b display: block; \x7d\n      .section ol li:before \x7b content: counter(item) \". \"; counter-increment: item; font-weight: 600; color: var(--blue); \x7d".data

def docSegBp1 : JStr := "\n      .phase-table \x7b width: 100%; border-collapse: collapse; margin: 16px 0; border-radius: 12px; overflow: hidden; box-shadow: 0 4px 12px rgba(0,0,0,0.08); \x7d\n      .phase-table th \x7b background: var(--blue); color: white; padding: 12px 8px; text-align: left; font-weight: 600; font-size: 13px; \x7d\n      .phase-table td \x7b padding: 12px 8px; border-bottom: 1px solid #E5E7EB; vertical-align: top; font-size: 13px; line-height: 1.4; \x7d\n      .phase-table tr:last-child td \x7b border-bottom: none; \x7d\n      .phase-table tr:nth-child(even) \x7b background: #F8FAFC; \x7d\n      .phase-table tr:hover \x7b background: #F1F5F9; \x7d\n\n      /* Enhanced print styles to preserve colors */\n      @media print \x7b\n        * \x7b\n          -webkit-print-color-adjust: exact !important;\n          color-adjust: exact !important;\n          print-color-adjust: exact !important;\n        \x7d\n        body \x7b\n          background: white !important;\n          margin: 0 !important;\n          -webkit-print-color-adjust: exact !important;\n        \x7d\n        .page \x7b\n          box-shadow: none !important;\n          margin: 0 !important;\n          max-width: none !important;\n          background: white !important;\n        \x7d\n        header \x7b\n          background: linear-gradient(180deg, #EEF4FF 0%, #ffffff 100%) !important;\n          -webkit-print-color-adjust: exact !important;\n        \x7d\n        h1 \x7b color: #3A71DA !important; \x7d\n        .section h2 \x7b\n          color: #3A71DA !important;\n          border-left: 4px solid #FF7300 !important;\n        \x7d\n        .phase-table \x7b\n          border-collapse: collapse !important;\n          -webkit-print-color-adjust: exact !important;\n        \x7d\n        .phase-table th \x7b\n          background: #3A71DA !important;\n          color: white !important;".data

def docSegBp2 : JStr := "\n          -webkit-print-color-adjust: exact !important;\n        \x7d\n        .phase-table tr:nth-child(even) \x7b\n          background: #F8FAFC !important;\n          -webkit-print-color-adjust: exact !important;\n        \x7d\n        .phase-table tr:nth-child(odd) \x7b\n          background: white !important;\n          -webkit-print-color-adjust: exact !important;\n        \x7d\n        .phase-name \x7b\n          background: #FF7300 !important;\n          color: white !important;\n          -webkit-print-color-adjust: exact !important;\n        \x7d\n        .badge \x7b\n          background: rgba(58,113,218,0.15) !important;\n          color: #3A71DA !important;\n          border: 1px solid rgba(58,113,218,0.3) !important;\n          -webkit-print-color-adjust: exact !important;\n        \x7d\n        .accent \x7b color: #FF7300 !important; \x7d\n        .patient-info \x7b color: #6B7280 !important; \x7d\n        footer \x7b\n          border-top: 1px solid #E5E7EB !important;\n          color: #6B7280 !important;\n        \x7d\n        .qr-code-container \x7b\n          background: #F8FAFC !important;\n          -webkit-print-color-adjust: exact !important;\n        \x7d\n        .booking-link \x7b color: #3A71DA !important; \x7d\n        .section ol li:before \x7b color: #3A71DA !important; \x7d\n\n        /* Treatment Plan Phase Cards print styles */\n        .treatment-phase-card \x7b\n          background: #F8FAFC !important;\n          border-left: 4px solid #FF7300 !important;\n          -webkit-print-color-adjust: exact !important;\n        \x7d\n        .treatment-phase-card:first-of-type \x7b\n          border-left-color: #3A71DA !important;\n        \x7d\n        .treatment-phase-title \x7b color: #3A71DA !important; \x7d\n        .treatment-phase-subtitle \x7b color: #6B7280 !important; \x7d\n        .treatment-phase-recommended \x7b".data

def docSegBp3 : JStr := "\n          background: rgba(58,113,218,0.08) !important;\n          color: #3A71DA !important;\n          -webkit-print-color-adjust: exact !important;\n        \x7d\n        .treatment-phase-recommended strong \x7b color: #FF7300 !important; \x7d\n\n        /* Ensure table borders are visible */\n        .phase-table td \x7b\n          border-bottom: 1px solid #E5E7EB !important;\n        \x7d\n        .phase-table th \x7b\n          border-bottom: 2px solid #2C5AA0 !important;\n        \x7d\n      \x7d\n      .phase-name \x7b background: var(--orange); color: white; font-weight: 600; padding: 6px 10px; border-radius: 6px; display: inline-block; margin-bottom: 6px; font-size: 12px; \x7d\n      .phase-table .content-cell \x7b max-width: 200px; word-wrap: break-word; \x7d\n      /* Treatment Plan Phase Cards */\n      .treatment-plan-section \x7b margin-bottom: 24px; \x7d\n      .treatment-phase-card \x7b background: #F8FAFC; border-radius: 12px; padding: 20px; margin: 16px 0; border-left: 4px solid var(--orange); \x7d\n      .treatment-phase-card:first-of-type \x7b border-left-color: var(--blue); \x7d\n      .treatment-phase-header \x7b margin-bottom: 12px; \x7d\n      .treatment-phase-title \x7b font-size: 16px; font-weight: 600; color: var(--blue); \x7d\n      .treatment-phase-subtitle \x7b font-size: 13px; color: var(--muted); margin-left: 8px; \x7d\n      .treatment-phase-content \x7b margin-bottom: 12px; \x7d\n      .treatment-phase-content p \x7b margin: 0; line-height: 1.6; font-size: 14px; color: var(--text); \x7d\n      .treatment-phase-recommended \x7b background: rgba(58,113,218,0.08); padding: 10px 14px; border-radius: 8px; font-size: 13px; color: var(--blue); \x7d\n      .treatment-phase-recommended strong \x7b color: var(--orange); \x7d".data

def docSegBp4 : JStr := "\n      .badge \x7b display: inline-block; background: rgba(58,113,218,0.08); color: var(--blue); border: 1px solid rgba(58,113,218,0.22); padding: 4px 10px; border-radius: 999px; font-size: 12px; font-weight: 600; \x7d\n      footer \x7b padding: 18px 24px; font-size: 12px; color: var(--muted); border-top: 1px solid #E5E7EB; display:flex; justify-content: space-between; align-items:center; \x7d\n      .accent \x7b color: var(--orange); \x7d\n      .qr-code-container \x7b display: flex; flex-direction: column; align-items: center; justify-content: center; min-width: 120px; \x7d\n      .qr-code-label \x7b font-size: 12px; color: var(--blue); font-weight: 600; margin-bottom: 8px; text-align: center; \x7d\n      .qr-code-wrapper \x7b margin-bottom: 6px; \x7d\n      .qr-code \x7b width: 80px; height: 80px; border-radius: 8px; \x7d\n      .booking-url \x7b font-size: 10px; color: var(--muted); text-align: center; max-width: 100px; word-wrap: break-word; \x7d\n      .booking-link \x7b color: var(--blue); text-decoration: none; \x7d\n      .booking-link:hover \x7b text-decoration: underline; \x7d\n    </style>\n  </head>\n  <body>\n    <div class=\"page\">\n      <header>\n        <img src=\"https://www.mygcphysio.com.au/wp-content/uploads/2024/09/GCPSH-Colour-500px.png\" alt=\"Gold Coast Physio & Sports Health\" />\n        <div class=\"title\">\n          <h1>Massage Treatment Plan</h1>\n          ".data

def docSegB : JStr := docSegBp0 ++ docSegBp1 ++ docSegBp2 ++ docSegBp3 ++ docSegBp4

def docSegC : JStr := "\n        </div>\n        ".data

def docSegD : JStr := "\n      </header>\n      <main>\n        ".data

def docSegE : JStr := "\n      </main>\n      <footer>\n        <div>Generated on ".data

def docSegF : JStr := "</div>\n        <div class=\"accent\">mygcphysio.com.au | (07) 5500 6470</div>\n      </footer>\n    </div>\n  </body>\n</html>".data

def piSeg1 : JStr := "<div class=\"patient-info\">Patient: ".data

def piSeg2 : JStr := " | Date: ".data

def piSeg3 : JStr := " | Therapist: ".data

def piSeg4 : JStr := "</div>".data

def fbSeg1 : JStr := "<div class=\"section\"><p>".data

def fbSeg2 : JStr := "</p></div>".data

/-- The `${patientName ? ... : ''}` patient-info line
(src/server.js:915); `today` stands for the formatted
`new Date().toLocaleDateString(...)`. -/
def patientInfoHtml (patientName therapistName today : JStr) : JStr :=
  if 0 < patientName.length then
    piSeg1 ++ escapeHtml patientName ++ piSeg2 ++ today ++ piSeg3
      ++ escapeHtml therapistName ++ piSeg4
  else []

/-- The raw-paragraph fallback `<div class="section"><p>...` of the main
region (src/server.js:920). -/
def fallbackMain (planText : JStr) : JStr :=
  fbSeg1 ++ replaceChar '\n' "<br/>".data (escapeHtml planText) ++ fbSeg2

/-- Everything of the document before the interpolation of the main region. -/
def docPre (patientName therapistName qrCodeHtml today : JStr) : JStr :=
  docSegA ++ (if 0 < patientName.length then patientName else "Patient".data)
    ++ docSegB ++ patientInfoHtml patientName therapistName today
    ++ docSegC ++ qrCodeHtml ++ docSegD

/-- Everything of the document after the interpolation of the main region. -/
def docPost (today : JStr) : JStr := docSegE ++ today ++ docSegF

/-- Embedding of `renderStructuredHtml` (src/server.js:665-929). The current date
(used twice, display only) is the parameter `today`; the awaited
external QR generator is the parameter `qrGen`. -/
def renderStructuredHtml (planText patientName therapistName : JStr)
    (qrGen : JStr → Option JStr) (today : JStr) : JStr :=
  let sections := parsePlanText planText
  let qrCodeHtml := qrBlockHtml therapistName qrGen
  let sectionHtml := intercalateNl (sections.map renderSection)
  docPre patientName therapistName qrCodeHtml today
    ++ (if 0 < sectionHtml.length then sectionHtml else fallbackMain planText)
    ++ docPost today

/-! ### Helper lemmas about substrings -/

theorem startsWith_iff (p : JStr) : ∀ l, startsWith p l = true ↔ ∃ t, l = p ++ t := by
  induction p with
  | nil => intro l; simp [startsWith]
  | cons x ps ih =>
    intro l
    cases l with
    | nil => simp [startsWith]
    | cons c cs =>
      simp only [startsWith, Bool.and_eq_true, decide_eq_true_eq, ih,
        List.cons_append]
      constructor
      · rintro ⟨rfl, t, rfl⟩
        exact ⟨t, rfl⟩
      · rintro ⟨t, h⟩
        injection h with h1 h2
        exact ⟨h1.symm, t, h2⟩

theorem containsSub_iff (p : JStr) : ∀ l, containsSub p l = true ↔ ∃ u v, l = u ++ p ++ v := by
  intro l
  induction l with
  | nil =>
    simp only [containsSub, startsWith_iff]
    constructor
    · rintro ⟨t, h⟩
      exact ⟨[], t, by simpa using h⟩
    · rintro ⟨u, v, h⟩
      refine ⟨v, ?_⟩
      have hu : u = [] := by
        cases u with
        | nil => rfl
        | cons a us => exact absurd h (by simp)
      subst hu; simpa using h
  | cons c cs ih =>
    simp only [containsSub, Bool.or_eq_true, startsWith_iff, ih]
    constructor
    · rintro (⟨t, h⟩ | ⟨u, v, h⟩)
      · exact ⟨[], t, by simpa using h⟩
      · exact ⟨c :: u, v, by simp [h]⟩
    · rintro ⟨u, v, h⟩
      cases u with
      | nil => exact Or.inl ⟨v, by simpa using h⟩
      | cons a us =>
        rw [List.cons_append, List.cons_append] at h
        injection h with h1 h2
        exact Or.inr ⟨us, v, h2⟩

theorem containsSub_of_split {p l : JStr} (u v : JStr) (h : l = u ++ p ++ v) :
    containsSub p l = true :=
  (containsSub_iff p l).mpr ⟨u, v, h⟩

theorem containsSub_appL {p t : JStr} (u : JStr) (h : containsSub p t = true) :
    containsSub p (u ++ t) = true := by
  obtain ⟨a, b, rfl⟩ := (containsSub_iff p t).mp h
  exact containsSub_of_split (u ++ a) b (by simp)

theorem containsSub_appR {p t : JStr} (v : JStr) (h : containsSub p t = true) :
    containsSub p (t ++ v) = true := by
  obtain ⟨a, b, rfl⟩ := (containsSub_iff p t).mp h
  exact containsSub_of_split a (b ++ v) (by simp)

theorem containsSub_trans {a b c : JStr} (h1 : containsSub a b = true)
    (h2 : containsSub b c = true) : containsSub a c = true := by
  obtain ⟨u, v, rfl⟩ := (containsSub_iff b c).mp h2
  obtain ⟨x, y, rfl⟩ := (containsSub_iff a b).mp h1
  exact containsSub_of_split (u ++ x) (y ++ v) (by simp)

theorem containsSub_self (p : JStr) : containsSub p p = true :=
  containsSub_of_split [] [] (by simp)

/-! ### Helper lemmas about `replaceChar`, `stripBold` and `escapeHtml` -/

theorem replaceChar_append (c : Char) (r : JStr) (a : JStr) : ∀ b,
    replaceChar c r (a ++ b) = replaceChar c r a ++ replaceChar c r b := by
  induction a with
  | nil => intro b; simp [replaceChar]
  | cons d rest ih => intro b; simp [replaceChar, ih]

theorem replaceChar_of_not_mem (c : Char) (r : JStr) :
    ∀ l : JStr, c ∉ l → replaceChar c r l = l := by
  intro l
  induction l with
  | nil => intro; rfl
  | cons d rest ih =>
    intro h
    have hd : ¬d = c := fun hdc => h (hdc ▸ List.mem_cons_self d rest)
    have hr : c ∉ rest := fun hm => h (List.mem_cons_of_mem d hm)
    simp [replaceChar, hd, ih hr]

theorem mem_stripBold_of_ne_star {c : Char} (hc : ¬c = '*') :
    ∀ l : JStr, c ∈ l → c ∈ stripBold l := by
  intro l
  induction l using stripBold.induct with
  | case1 => intro h; cases h
  | case2 d => intro h; exact h
  | case3 c1 c2 rest hstar ih =>
    intro h
    rw [stripBold, if_pos hstar]
    simp only [Bool.and_eq_true, decide_eq_true_eq] at hstar
    rcases List.mem_cons.mp h with h1 | h'
    · exact absurd (h1.trans hstar.1) hc
    rcases List.mem_cons.mp h' with h2 | h''
    · exact absurd (h2.trans hstar.2) hc
    · exact ih h''
  | case4 c1 c2 rest hstar ih =>
    intro h
    rw [stripBold, if_neg hstar]
    rcases List.mem_cons.mp h with h1 | h'
    · rw [h1]; exact List.mem_cons_self _ _
    · exact List.mem_cons_of_mem c1 (ih h')

theorem stripBold_append_of_no_star : ∀ (t l : JStr), '*' ∉ t →
    stripBold (t ++ l) = t ++ stripBold l := by
  intro t
  induction t using stripBold.induct with
  | case1 => intro l _; rfl
  | case2 d =>
    intro l h
    have hd : ¬d = '*' := fun hdc => h (by simp [hdc])
    cases l with
    | nil => simp [stripBold]
    | cons e rest =>
      have hcond : ¬((decide (d = '*') && decide (e = '*')) = true) := by
        simp [hd]
      show stripBold (d :: e :: rest) = d :: stripBold (e :: rest)
      rw [stripBold, if_neg hcond]
  | case3 c1 c2 rest hstar ih =>
    intro l h
    simp only [Bool.and_eq_true, decide_eq_true_eq] at hstar
    exact absurd hstar.1 (fun hc1 => h (by simp [hc1]))
  | case4 c1 c2 rest hstar ih =>
    intro l h
    have h2 : '*' ∉ c2 :: rest := fun hm => h (List.mem_cons_of_mem c1 hm)
    show stripBold (c1 :: (c2 :: (rest ++ l))) = c1 :: c2 :: rest ++ stripBold l
    rw [stripBold, if_neg hstar,
      show c2 :: (rest ++ l) = (c2 :: rest) ++ l from rfl, ih l h2]
    rfl

theorem containsSub_cons_elim {p : JStr} {a : Char} {l : JStr}
    (h : containsSub p (a :: l) = true) :
    startsWith p (a :: l) = true ∨ containsSub p l = true := by
  simpa [containsSub, Bool.or_eq_true] using h

theorem containsSub_cons_of (a : Char) {p l : JStr}
    (h : containsSub p l = true) : containsSub p (a :: l) = true := by
  simp [containsSub, h]

theorem startsWith_append_same (u : JStr) : ∀ s l,
    startsWith (u ++ s) (u ++ l) = startsWith s l := by
  induction u with
  | nil => intro s l; rfl
  | cons a us ih => intro s l; simp [startsWith, ih]

/-- Preservation of `containsSub` through a single-character substitution whose pattern
avoids the substituted character. -/
theorem containsSub_replaceChar {p : JStr} (c : Char) (r : JStr)
    (hp : c ∉ p) {x : JStr} (h : containsSub p x = true) :
    containsSub p (replaceChar c r x) = true := by
  obtain ⟨u, v, rfl⟩ := (containsSub_iff p x).mp h
  rw [replaceChar_append, replaceChar_append, replaceChar_of_not_mem c r p hp]
  exact containsSub_of_split _ _ rfl

/-- Escaping a string containing `&` puts `&amp;` in the output. -/
theorem mem_escAmp {s : JStr} (h : '&' ∈ s) :
    containsSub "&amp;".data (replaceChar '&' "&amp;".data s) = true := by
  obtain ⟨u, v, rfl⟩ := List.append_of_mem h
  rw [replaceChar_append]
  have hmid : replaceChar '&' "&amp;".data ('&' :: v) =
      "&amp;".data ++ replaceChar '&' "&amp;".data v := by
    simp [replaceChar]
  rw [hmid]
  exact containsSub_of_split (replaceChar '&' "&amp;".data u)
    (replaceChar '&' "&amp;".data v) (by simp)

theorem amp_in_escapeHtml {t : JStr} (h : '&' ∈ t) :
    containsSub "&amp;".data (escapeHtml t) = true := by
  have h1 : '&' ∈ stripBold t := mem_stripBold_of_ne_star (by decide) t h
  exact containsSub_replaceChar '>' "&gt;".data (by decide)
    (containsSub_replaceChar '<' "&lt;".data (by decide) (mem_escAmp h1))

/-- Escaping a string that already contains `&amp;` produces the
double-escaped `&amp;amp;`. -/
theorem ampamp_in_escapeHtml {t : JStr}
    (h : containsSub "&amp;".data (stripBold t) = true) :
    containsSub "&amp;amp;".data (escapeHtml t) = true := by
  obtain ⟨u, v, hsplit⟩ := (containsSub_iff _ _).mp h
  have hmid : replaceChar '&' "&amp;".data "&amp;".data = "&amp;amp;".data := by
    decide
  have h2 : containsSub "&amp;amp;".data
      (replaceChar '&' "&amp;".data (stripBold t)) = true := by
    rw [hsplit, replaceChar_append, replaceChar_append, hmid]
    exact containsSub_of_split _ _ rfl
  exact containsSub_replaceChar '>' "&gt;".data (by decide)
    (containsSub_replaceChar '<' "&lt;".data (by decide) h2)

/-- A prefix without `&` of a substituted string (whose replacement
starts with `&`) is a prefix of the original string. -/
theorem sw_repl_back (c : Char) (r' : JStr) : ∀ (y s : JStr), '&' ∉ s →
    startsWith s (replaceChar c ('&' :: r') y) = true →
    startsWith s y = true := by
  intro y
  induction y with
  | nil =>
    intro s _ h
    simpa [replaceChar] using h
  | cons y0 ys ih =>
    intro s hns h
    cases s with
    | nil => rfl
    | cons s0 ss =>
      have hrepl : replaceChar c ('&' :: r') (y0 :: ys) =
          (if y0 = c then ('&' :: r') else [y0]) ++
            replaceChar c ('&' :: r') ys := rfl
      by_cases hy : y0 = c
      · rw [hrepl, if_pos hy] at h
        simp only [List.cons_append, startsWith, Bool.and_eq_true,
          decide_eq_true_eq] at h
        exact absurd (h.1 ▸ List.mem_cons_self s0 ss) (by
          intro hm
          exact hns (by simp [h.1]))
      · rw [hrepl, if_neg hy] at h
        simp only [List.singleton_append, startsWith, Bool.and_eq_true,
          decide_eq_true_eq] at h
        have hss : '&' ∉ ss := fun hm => hns (List.mem_cons_of_mem s0 hm)
        simp only [startsWith, Bool.and_eq_true, decide_eq_true_eq]
        exact ⟨h.1, ih ss hss h.2⟩

/-- An occurrence whose first character avoids every character of `w`
cannot start inside `w`. -/
theorem containsSub_skip (p0 : Char) (ps : JStr) : ∀ (w E : JStr),
    p0 ∉ w → containsSub (p0 :: ps) (w ++ E) = true →
    containsSub (p0 :: ps) E = true := by
  intro w
  induction w with
  | nil => intro E _ h; exact h
  | cons a xs ih =>
    intro E hn h
    rcases containsSub_cons_elim (by simpa using h) with hsw | h'
    · simp only [startsWith, Bool.and_eq_true, decide_eq_true_eq] at hsw
      exact absurd (hsw.1 ▸ List.mem_cons_self a xs) (fun hm => hn hm)
    · exact ih E (fun hm => hn (List.mem_cons_of_mem a hm)) h'

/-- Back-translation of an occurrence of `'&'::p'` through a
substitution `c ↦ '&'::r'`, when the occurrence cannot begin inside an
inserted replacement. -/
theorem containsSub_repl_back (c : Char) (r' p' : JStr)
    (hp : '&' ∉ p') (hr : '&' ∉ r')
    (hmis : ∀ E, startsWith p' (r' ++ E) = false) :
    ∀ y, containsSub ('&' :: p') (replaceChar c ('&' :: r') y) = true →
      containsSub ('&' :: p') y = true := by
  intro y
  induction y with
  | nil =>
    intro h
    simp [replaceChar, containsSub, startsWith] at h
  | cons y0 ys ih =>
    intro h
    have hrepl : replaceChar c ('&' :: r') (y0 :: ys) =
        (if y0 = c then ('&' :: r') else [y0]) ++
          replaceChar c ('&' :: r') ys := rfl
    by_cases hy : y0 = c
    · rw [hrepl, if_pos hy] at h
      rcases containsSub_cons_elim (by simpa using h) with hsw | h'
      · simp only [startsWith, Bool.and_eq_true, decide_eq_true_eq] at hsw
        rw [hmis _] at hsw
        exact absurd hsw.2 (by simp)
      · exact containsSub_cons_of y0 (ih (containsSub_skip '&' p' r' _ hr h'))
    · rw [hrepl, if_neg hy] at h
      rcases containsSub_cons_elim (by simpa using h) with hsw | h'
      · simp only [startsWith, Bool.and_eq_true, decide_eq_true_eq] at hsw
        have hpys : startsWith p' ys = true := sw_repl_back c r' ys p' hp hsw.2
        rw [← hsw.1]
        simp [containsSub, startsWith, hpys]
      · exact containsSub_cons_of y0 (ih h')

/-- Back-translation of `&amp;amp;` through the `&`-escaping pass: it
can only come from an `&amp;` already present. -/
theorem ampamp_escAmp_back :
    ∀ y, containsSub "&amp;amp;".data (replaceChar '&' "&amp;".data y) = true →
      containsSub "&amp;".data y = true := by
  intro y
  induction y with
  | nil =>
    intro h
    simp [replaceChar, containsSub, startsWith] at h
  | cons y0 ys ih =>
    intro h
    have hrepl : replaceChar '&' "&amp;".data (y0 :: ys) =
        (if y0 = '&' then "&amp;".data else [y0]) ++
          replaceChar '&' "&amp;".data ys := rfl
    by_cases hy : y0 = '&'
    · rw [hrepl, if_pos hy] at h
      rcases containsSub_cons_elim (by simpa using h) with hsw | h'
      · have hsw2 : startsWith "amp;amp;".data
            ("amp;".data ++ replaceChar '&' "&amp;".data ys) = true := by
          have := (show startsWith ('&' :: "amp;amp;".data)
              ('&' :: ("amp;".data ++ replaceChar '&' "&amp;".data ys)) = true
            from hsw)
          simpa [startsWith] using this
        have hshift : startsWith "amp;".data
            (replaceChar '&' "&amp;".data ys) = true := by
          have := startsWith_append_same "amp;".data "amp;".data
            (replaceChar '&' "&amp;".data ys)
          rw [show "amp;amp;".data = "amp;".data ++ "amp;".data from rfl] at hsw2
          rw [this] at hsw2
          exact hsw2
        have hys : startsWith "amp;".data ys = true :=
          sw_repl_back '&' "amp;".data ys "amp;".data (by decide) hshift
        rw [hy]
        simp [containsSub, startsWith, hys]
      · have hE := containsSub_skip '&' "amp;amp;".data "amp;".data _
          (by decide) h'
        exact containsSub_cons_of y0 (ih hE)
    · rw [hrepl, if_neg hy] at h
      rcases containsSub_cons_elim (by simpa using h) with hsw | h'
      · simp only [startsWith, Bool.and_eq_true, decide_eq_true_eq] at hsw
        exact absurd hsw.1.symm hy
      · exact containsSub_cons_of y0 (ih h')

/-- Escaping never fabricates `&amp;amp;`: it can appear in
`escapeHtml t` only if the bold-stripped input already contained
`&amp;`. -/
theorem ampamp_escapeHtml_back {t : JStr}
    (h : containsSub "&amp;amp;".data (escapeHtml t) = true) :
    containsSub "&amp;".data (stripBold t) = true := by
  have h1 := containsSub_repl_back '>' "gt;".data "amp;amp;".data
    (by decide) (by decide)
    (fun E => by
      show startsWith "amp;amp;".data ('g' :: 't' :: ';' :: E) = false
      simp [startsWith])
    _ h
  have h2 := containsSub_repl_back '<' "lt;".data "amp;amp;".data
    (by decide) (by decide)
    (fun E => by
      show startsWith "amp;amp;".data ('l' :: 't' :: ';' :: E) = false
      simp [startsWith])
    _ h1
  exact ampamp_escAmp_back _ h2

/-! ### Lemmas about the candidate filter of the Goals / Key Actions
renderers -/

theorem candidateLines_pos (ls : List JStr) :
    ∀ g ∈ candidateLines ls, 0 < g.length := by
  intro g hg
  simp only [candidateLines, List.mem_filterMap] at hg
  obtain ⟨l, _, hl⟩ := hg
  split at hl
  · rename_i hcond
    injection hl with hl
    subst hl
    simpa using (Bool.and_eq_true _ _ |>.mp
      ((Bool.and_eq_true _ _ |>.mp hcond).1)).1
  · cases hl

theorem containsSub_single (c : Char) (l : JStr) :
    containsSub [c] l = true ↔ c ∈ l := by
  rw [containsSub_iff]
  constructor
  · rintro ⟨u, v, rfl⟩
    simp
  · intro h
    obtain ⟨u, v, rfl⟩ := List.append_of_mem h
    exact ⟨u, v, by simp⟩

theorem mem_of_mem_jsTrim {a : Char} {l : JStr} (h : a ∈ jsTrim l) :
    a ∈ l := by
  simp only [jsTrim, jsTrimEnd, List.mem_reverse] at h
  have h1 := (List.dropWhile_sublist ws).mem h
  rw [List.mem_reverse] at h1
  exact (List.dropWhile_sublist ws).mem h1

/-- Claim C4 as written is false: the filter only excludes lines
starting with a quotation mark or an asterisk; this line starts with the
bullet marker `-` and is nevertheless kept as a candidate. -/
theorem c4_counterexample :
    (jsTrim "- Walk 10 minutes daily".data).head? = some '-' ∧
    candidateLines ["- Walk 10 minutes daily".data] =
      ["- Walk 10 minutes daily".data] := by
  decide

/-- C4 (amended): the candidate item lines of the Goals / Key Actions
renderers are exactly the trimmed lines that are non-empty and start
with neither `"` nor `*`; lines starting with the bullet markers `-` or
`•` are not excluded. -/
theorem c4_candidate_filter (ls : List JStr) :
    candidateLines ls =
      (ls.map jsTrim).filter
        (fun t => !t.isEmpty && !(t.head? = some '"') &&
          !(t.head? = some '*')) := by
  have hcond : ∀ t : JStr,
      (0 < t.length && !startsWith ['"'] t && !startsWith ['*'] t) =
      (!t.isEmpty && !(t.head? = some '"') && !(t.head? = some '*')) := by
    intro t
    cases t with
    | nil => simp [startsWith]
    | cons d ds => simp [startsWith, eq_comm]
  induction ls with
  | nil => rfl
  | cons l rest ih =>
    simp only [candidateLines, List.filterMap_cons, List.map_cons,
      List.filter_cons] at ih ⊢
    rw [← hcond (jsTrim l)]
    by_cases hb : (0 < (jsTrim l).length && !startsWith ['"'] (jsTrim l)
        && !startsWith ['*'] (jsTrim l)) = true
    · simp only [hb, if_true]
      exact congrArg _ ih
    · simp only [Bool.not_eq_true] at hb
      simp only [hb, if_false]
      exact ih

/-! ### C3: the `length >= 3` path of the Goals / Key Actions
renderers -/

/-- C3: when at least 3 candidate lines survive the filter, both
renderers emit exactly the first 3 candidates as items, in input order,
dropping the rest — as an unordered list for Goals and an ordered list
for Key Actions. -/
theorem c3_take_first_three (sec : PlanSection)
    (h3 : 3 ≤ (candidateLines sec.lines).length) :
    renderGoalsSection sec =
      listSectionHtmlA sec.number sec.title "<ul>".data "</ul>".data
        (liJoin ((candidateLines sec.lines).take 3)) ∧
    renderKeyActionsSection sec =
      listSectionHtmlA sec.number sec.title "<ol>".data "</ol>".data
        (liJoin ((candidateLines sec.lines).take 3)) := by
  have hfil : ((candidateLines sec.lines).take 3).filter
      (fun g => 0 < g.length) = (candidateLines sec.lines).take 3 := by
    rw [List.filter_eq_self]
    intro a ha
    simpa using candidateLines_pos sec.lines a (List.mem_of_mem_take ha)
  constructor <;>
    simp [renderGoalsSection, renderKeyActionsSection, h3, hfil]

/-- Witness input for `c3_take_first_three`: four candidate lines. -/
def c3Sec : PlanSection :=
  { number := "3".data, title := "Goals".data, description := [],
    lines := ["Goal one".data, "Goal two".data, "Goal three".data,
      "Goal four".data],
    isOrphaned := false }

theorem c3_take_first_three_witness :
    renderGoalsSection c3Sec =
      listSectionHtmlA c3Sec.number c3Sec.title "<ul>".data "</ul>".data
        (liJoin ((candidateLines c3Sec.lines).take 3)) ∧
    renderKeyActionsSection c3Sec =
      listSectionHtmlA c3Sec.number c3Sec.title "<ol>".data "</ol>".data
        (liJoin ((candidateLines c3Sec.lines).take 3)) :=
  c3_take_first_three c3Sec (by decide)

/-! ### C5: the sentence fallback of the Goals / Key Actions
renderers -/

theorem splitOnDot_ne_nil : ∀ l : JStr, splitOnDot l ≠ [] := by
  intro l
  cases l with
  | nil => simp [splitOnDot]
  | cons c rest =>
    by_cases hc : c = '.'
    · simp [splitOnDot, hc]
    · simp only [splitOnDot, if_neg hc]
      cases splitOnDot rest <;> simp

theorem splitOnDot_append (r : JStr) : ∀ a : JStr, '.' ∉ a →
    splitOnDot (a ++ '.' :: r) = a :: splitOnDot r := by
  intro a
  induction a with
  | nil => intro; simp [splitOnDot]
  | cons c cs ih =>
    intro h
    have hc : ¬c = '.' := fun hcc => h (by simp [hcc])
    have hcs : '.' ∉ cs := fun hm => h (List.mem_cons_of_mem c hm)
    rw [List.cons_append]
    simp only [splitOnDot, if_neg hc, List.append_eq]
    rw [ih hcs]

/-- The per-fragment processing of the sentence fallback, on a fragment
without periods or asterisks whose cleaned form is non-empty. -/
theorem sentenceItems_two (s1 s2 : JStr)
    (hd1 : '.' ∉ s1) (hd2 : '.' ∉ s2)
    (hs1 : '*' ∉ s1) (hs2 : '*' ∉ s2)
    (ht1 : 0 < (jsTrim s1).length) (ht2 : 0 < (jsTrim s2).length)
    (hc1 : 0 < (cleanEdges (jsTrim s1)).length)
    (hc2 : 0 < (cleanEdges (jsTrim s2)).length) :
    sentenceItems (s1 ++ '.' :: s2 ++ ['.']) =
      [cleanEdges (jsTrim s1), cleanEdges (jsTrim s2)] := by
  have hstar1 : containsSub ['*'] (jsTrim s1) = false := by
    rw [Bool.eq_false_iff]
    intro hmem
    exact hs1 (mem_of_mem_jsTrim ((containsSub_single _ _).mp hmem))
  have hstar2 : containsSub ['*'] (jsTrim s2) = false := by
    rw [Bool.eq_false_iff]
    intro hmem
    exact hs2 (mem_of_mem_jsTrim ((containsSub_single _ _).mp hmem))
  have hnil : jsTrim ([] : JStr) = [] := rfl
  have hsplit : splitOnDot (s1 ++ '.' :: s2 ++ ['.']) = [s1, s2, []] := by
    rw [List.append_assoc, List.cons_append,
      splitOnDot_append _ s1 hd1,
      show s2 ++ ['.'] = s2 ++ '.' :: ([] : JStr) from rfl,
      splitOnDot_append _ s2 hd2]
    rfl
  simp only [sentenceItems, hsplit, List.filter_cons, List.filter_nil,
    List.filterMap_cons, List.filterMap_nil]
  simp [ht1, ht2, hstar1, hstar2, hc1, hc2, hnil]

/-- C5: with at least one but fewer than 3 candidate lines, both
renderers fall back to joining the candidates with spaces and splitting
on periods (no 3-item cap); and a single candidate made of two
period-terminated sentences yields exactly the two cleaned fragments as
items. -/
theorem c5_sentence_fallback :
    (∀ sec : PlanSection, 0 < (candidateLines sec.lines).length →
      (candidateLines sec.lines).length < 3 →
      renderGoalsSection sec =
        listSectionHtmlB sec.number sec.title "<ul>".data "</ul>".data
          (liJoin (sentenceItems (joinSpace (candidateLines sec.lines)))) ∧
      renderKeyActionsSection sec =
        listSectionHtmlB sec.number sec.title "<ol>".data "</ol>".data
          (liJoin (sentenceItems (joinSpace (candidateLines sec.lines))))) ∧
    (∀ s1 s2 : JStr, '.' ∉ s1 → '.' ∉ s2 → '*' ∉ s1 → '*' ∉ s2 →
      0 < (jsTrim s1).length → 0 < (jsTrim s2).length →
      0 < (cleanEdges (jsTrim s1)).length →
      0 < (cleanEdges (jsTrim s2)).length →
      sentenceItems (s1 ++ '.' :: s2 ++ ['.']) =
        [cleanEdges (jsTrim s1), cleanEdges (jsTrim s2)] ∧
      (sentenceItems (s1 ++ '.' :: s2 ++ ['.'])).length = 2) := by
  constructor
  · intro sec h1 h3
    have hn3 : ¬3 ≤ (candidateLines sec.lines).length := by omega
    constructor <;>
      simp [renderGoalsSection, renderKeyActionsSection, hn3, h1]
  · intro s1 s2 hd1 hd2 hs1 hs2 ht1 ht2 hc1 hc2
    have := sentenceItems_two s1 s2 hd1 hd2 hs1 hs2 ht1 ht2 hc1 hc2
    exact ⟨this, by rw [this]; rfl⟩

/-- Witness input for `c5_sentence_fallback`: one candidate line with
two sentence-terminating periods. -/
def c5Sec : PlanSection :=
  { number := "3".data, title := "Goals".data, description := [],
    lines := ["Improve posture daily. Walk 30 minutes.".data],
    isOrphaned := false }

theorem c5_sentence_fallback_witness :
    (renderGoalsSection c5Sec =
      listSectionHtmlB c5Sec.number c5Sec.title "<ul>".data "</ul>".data
        (liJoin (sentenceItems (joinSpace (candidateLines c5Sec.lines)))) ∧
     renderKeyActionsSection c5Sec =
      listSectionHtmlB c5Sec.number c5Sec.title "<ol>".data "</ol>".data
        (liJoin (sentenceItems (joinSpace (candidateLines c5Sec.lines))))) ∧
    sentenceItems ("Improve posture daily".data ++ '.' ::
        " Walk 30 minutes".data ++ ['.']) =
      [cleanEdges (jsTrim "Improve posture daily".data),
       cleanEdges (jsTrim " Walk 30 minutes".data)] :=
  ⟨c5_sentence_fallback.1 c5Sec (by decide) (by decide),
   (c5_sentence_fallback.2 "Improve posture daily".data
     " Walk 30 minutes".data (by decide) (by decide) (by decide)
     (by decide) (by decide) (by decide) (by decide) (by decide)).1⟩

/-! ### C6 / C10: the treatment-plan renderer -/

/-- A line that keeps the phase scanner in its current state when no
phase is open: it is not a phase header. -/
theorem tpStep_skip {ps : List Phase} {l : JStr}
    (h : isPhaseHeaderLine (jsTrim l) = false) :
    tpStep (ps, none) l = (ps, none) := by
  simp [tpStep, h]

theorem tp_fold_skip {pre : List JStr}
    (h : ∀ l ∈ pre, isPhaseHeaderLine (jsTrim l) = false) :
    ∀ ps : List Phase, pre.foldl tpStep (ps, none) = (ps, none) := by
  induction pre with
  | nil => intro ps; rfl
  | cons l ls ih =>
    intro ps
    rw [List.foldl_cons, tpStep_skip (h l (List.mem_cons_self _ _))]
    exact ih (fun x hx => h x (List.mem_cons_of_mem l hx)) ps

/-- A content line of an open phase: not a phase header, not a
`Recommended:` line, non-blank, and not starting with `**`. -/
def bodyLineOk (l : JStr) : Prop :=
  isPhaseHeaderLine (jsTrim l) = false ∧
  recommendedMatch (jsTrim l) = none ∧
  0 < (jsTrim l).length ∧
  startsWith "**".data (jsTrim l) = false

instance bodyLineOkDec (l : JStr) : Decidable (bodyLineOk l) :=
  inferInstanceAs (Decidable (_ ∧ _ ∧ _ ∧ _))

theorem tp_fold_body {b : List JStr} (h : ∀ l ∈ b, bodyLineOk l) :
    ∀ (ps : List Phase) (ph : Phase),
      b.foldl tpStep (ps, some ph) =
        (ps, some { ph with content := ph.content ++ b.map jsTrim }) := by
  induction b with
  | nil => intro ps ph; simp
  | cons l ls ih =>
    intro ps ph
    obtain ⟨h1, h2, h3, h4⟩ := h l (List.mem_cons_self _ _)
    have hstep : tpStep (ps, some ph) l =
        (ps, some { ph with content := ph.content ++ [jsTrim l] }) := by
      simp [tpStep, h1, h2, h3, h4]
    rw [List.foldl_cons, hstep,
      ih (fun x hx => h x (List.mem_cons_of_mem l hx))]
    simp

/-- C10: lines before the first phase-header line (including the inline
description stored as the first line) contribute nothing to the
treatment-plan output; with no phase-header line at all, the output is
the bare section heading with zero phase cards. -/
theorem c10_preheader_dropped :
    (∀ sec : PlanSection,
      (∀ l ∈ sec.lines, isPhaseHeaderLine (jsTrim l) = false) →
      tpPhases sec.lines = [] ∧
      renderTreatmentPlanSection sec =
        tpOpenHtml sec.number sec.title ++ tpCloseHtml) ∧
    (∀ (sec : PlanSection) (pre : List JStr),
      (∀ l ∈ pre, isPhaseHeaderLine (jsTrim l) = false) →
      renderTreatmentPlanSection { sec with lines := pre ++ sec.lines } =
        renderTreatmentPlanSection sec) := by
  constructor
  · intro sec h
    have hph : tpPhases sec.lines = [] := by
      simp [tpPhases, tp_fold_skip h]
    refine ⟨hph, ?_⟩
    simp [renderTreatmentPlanSection, hph]
  · intro sec pre h
    have hfold : (pre ++ sec.lines).foldl tpStep ([], none) =
        sec.lines.foldl tpStep ([], none) := by
      rw [List.foldl_append, tp_fold_skip h]
    simp [renderTreatmentPlanSection, tpPhases, hfold]

/-- Witness input for `c10_preheader_dropped`: a Treatment Plan section
whose lines never mention a phase header. -/
def c10Sec : PlanSection :=
  { number := "5".data, title := "Treatment Plan".data,
    description := "We will treat you.".data,
    lines := ["We will treat you.".data, "More detail here.".data],
    isOrphaned := false }

theorem c10_preheader_dropped_witness :
    (tpPhases c10Sec.lines = [] ∧
      renderTreatmentPlanSection c10Sec =
        tpOpenHtml c10Sec.number c10Sec.title ++ tpCloseHtml) ∧
    renderTreatmentPlanSection
        { c10Sec with lines := ["Preamble note".data] ++ c10Sec.lines } =
      renderTreatmentPlanSection c10Sec :=
  ⟨c10_preheader_dropped.1 c10Sec (by decide),
   c10_preheader_dropped.2 c10Sec ["Preamble note".data] (by decide)⟩

/-- The acute phase header of the fixed template. -/
def gycHeader : JStr :=
  "**Getting You Comfortable** (Acute Phase, 2-4 weeks):".data

/-- The maintenance phase header of the fixed template. -/
def kybHeader : JStr :=
  "**Keeping You at Your Best** (Maintenance, Ongoing):".data

/-- The recommendation line of the fixed template. -/
def recLine : JStr := "Recommended: 2x/week".data

theorem tpStep_gyc (ps : List Phase) (cur : Option Phase) :
    tpStep (ps, cur) gycHeader =
      (ps ++ cur.toList,
       some ⟨"Getting You Comfortable".data,
         "Acute Phase, 2-4 weeks".data, [], []⟩) := rfl

theorem tpStep_kyb (ps : List Phase) (cur : Option Phase) :
    tpStep (ps, cur) kybHeader =
      (ps ++ cur.toList,
       some ⟨"Keeping You at Your Best".data,
         "Maintenance, Ongoing".data, [], []⟩) := rfl

theorem tpStep_rec (ps : List Phase) (ph : Phase) :
    tpStep (ps, some ph) recLine =
      (ps, some { ph with recommended := "2x/week".data }) := rfl

/-- C6: a Treatment Plan section whose lines carry the two phase
headers, each followed by body lines and a `Recommended: 2x/week` line,
renders exactly two phase cards in header order with the
asterisk-delimited titles, the parenthesised subtitles, the trimmed body
lines as content, and `2x/week` as the recommended field. -/
theorem c6_two_phase_cards (sec : PlanSection) (pre b1 b2 : List JStr)
    (hlines : sec.lines =
      pre ++ gycHeader ::
        (b1 ++ recLine :: kybHeader :: (b2 ++ [recLine])))
    (hpre : ∀ l ∈ pre, isPhaseHeaderLine (jsTrim l) = false)
    (hb1 : ∀ l ∈ b1, bodyLineOk l) (hb2 : ∀ l ∈ b2, bodyLineOk l) :
    tpPhases sec.lines =
      [⟨"Getting You Comfortable".data, "Acute Phase, 2-4 weeks".data,
         b1.map jsTrim, "2x/week".data⟩,
       ⟨"Keeping You at Your Best".data, "Maintenance, Ongoing".data,
         b2.map jsTrim, "2x/week".data⟩] ∧
    renderTreatmentPlanSection sec =
      tpOpenHtml sec.number sec.title ++
        (phaseCardHtml ⟨"Getting You Comfortable".data,
            "Acute Phase, 2-4 weeks".data, b1.map jsTrim,
            "2x/week".data⟩ ++
          (phaseCardHtml ⟨"Keeping You at Your Best".data,
              "Maintenance, Ongoing".data, b2.map jsTrim,
              "2x/week".data⟩ ++ tpCloseHtml)) := by
  have hphases : tpPhases sec.lines =
      [⟨"Getting You Comfortable".data, "Acute Phase, 2-4 weeks".data,
         b1.map jsTrim, "2x/week".data⟩,
       ⟨"Keeping You at Your Best".data, "Maintenance, Ongoing".data,
         b2.map jsTrim, "2x/week".data⟩] := by
    rw [tpPhases, hlines]
    rw [List.foldl_append, tp_fold_skip hpre, List.foldl_cons, tpStep_gyc,
      List.foldl_append, tp_fold_body hb1, List.foldl_cons]
    rw [tpStep_rec, List.foldl_cons, tpStep_kyb, List.foldl_append,
      tp_fold_body hb2, List.foldl_cons, tpStep_rec, List.foldl_nil]
    simp
  refine ⟨hphases, ?_⟩
  rw [renderTreatmentPlanSection, hphases]
  simp

/-- Witness input for `c6_two_phase_cards`. -/
def c6Sec : PlanSection :=
  { number := "5".data, title := "Treatment Plan".data, description := [],
    lines := [gycHeader, "Deep tissue work weekly.".data, recLine,
      kybHeader, "Monthly maintenance sessions.".data, recLine],
    isOrphaned := false }

theorem c6_two_phase_cards_witness :
    tpPhases c6Sec.lines =
      [⟨"Getting You Comfortable".data, "Acute Phase, 2-4 weeks".data,
         ["Deep tissue work weekly.".data].map jsTrim, "2x/week".data⟩,
       ⟨"Keeping You at Your Best".data, "Maintenance, Ongoing".data,
         ["Monthly maintenance sessions.".data].map jsTrim,
         "2x/week".data⟩] ∧
    renderTreatmentPlanSection c6Sec =
      tpOpenHtml c6Sec.number c6Sec.title ++
        (phaseCardHtml ⟨"Getting You Comfortable".data,
            "Acute Phase, 2-4 weeks".data,
            ["Deep tissue work weekly.".data].map jsTrim,
            "2x/week".data⟩ ++
          (phaseCardHtml ⟨"Keeping You at Your Best".data,
              "Maintenance, Ongoing".data,
              ["Monthly maintenance sessions.".data].map jsTrim,
              "2x/week".data⟩ ++ tpCloseHtml)) :=
  c6_two_phase_cards c6Sec [] ["Deep tissue work weekly.".data]
    ["Monthly maintenance sessions.".data] rfl (by decide) (by decide)
    (by decide)

/-! ### Lemmas about trimming and line splitting -/

theorem dropWhile_ws_eq_of_trim {l : JStr} (h : jsTrim l = l) :
    l.dropWhile ws = l := by
  have h1 : (l.dropWhile ws).length ≤ l.length :=
    (List.dropWhile_sublist ws).length_le
  have h2 : (jsTrim l).length ≤ (l.dropWhile ws).length := by
    simp only [jsTrim, jsTrimEnd, List.length_reverse]
    calc ((l.dropWhile ws).reverse.dropWhile ws).length
        ≤ (l.dropWhile ws).reverse.length :=
          (List.dropWhile_sublist ws).length_le
      _ = (l.dropWhile ws).length := List.length_reverse _
  rw [h] at h2
  exact ((List.dropWhile_sublist ws).eq_of_length (le_antisymm h1 h2)).symm ▸
    (List.dropWhile_sublist ws).eq_of_length (le_antisymm h1 h2)

theorem jsTrimEnd_eq_of_trim {l : JStr} (h : jsTrim l = l) :
    jsTrimEnd l = l := by
  have h1 := dropWhile_ws_eq_of_trim h
  calc jsTrimEnd l = jsTrimEnd (l.dropWhile ws) := by rw [h1]
    _ = jsTrim l := rfl
    _ = l := h

theorem head_not_ws_of_dropWhile {c : Char} {rest : JStr}
    (h : (c :: rest).dropWhile ws = c :: rest) : ws c = false := by
  by_contra hws
  rw [Bool.not_eq_false] at hws
  rw [List.dropWhile_cons, if_pos hws] at h
  have := congrArg List.length h
  have hle : (rest.dropWhile ws).length ≤ rest.length :=
    (List.dropWhile_sublist ws).length_le
  simp at this
  omega

theorem head_not_ws_of_trim {c : Char} {rest : JStr}
    (h : jsTrim (c :: rest) = c :: rest) : ws c = false :=
  head_not_ws_of_dropWhile (dropWhile_ws_eq_of_trim h)

theorem rev_dropWhile_ws_eq_of_trim {l : JStr} (h : jsTrim l = l) :
    l.reverse.dropWhile ws = l.reverse := by
  have h1 := jsTrimEnd_eq_of_trim h
  rw [jsTrimEnd] at h1
  calc l.reverse.dropWhile ws
      = (l.reverse.dropWhile ws).reverse.reverse := by
        rw [List.reverse_reverse]
    _ = l.reverse := by rw [h1]

/-- Since trimming strips the same class at both ends, a string equal to
its own `trim` starts (if non-empty) with a non-whitespace character,
and the same holds for its reverse. -/
theorem rev_head_not_ws_of_trim {l : JStr} (h : jsTrim l = l) {c : Char}
    {rest : JStr} (hrev : l.reverse = c :: rest) : ws c = false := by
  have h1 := rev_dropWhile_ws_eq_of_trim h
  rw [hrev] at h1
  exact head_not_ws_of_dropWhile h1

theorem jsTrimEnd_eq_self {l : JStr}
    (hl : ∀ c rest, l.reverse = c :: rest → ws c = false) :
    jsTrimEnd l = l := by
  rw [jsTrimEnd]
  cases hrev : l.reverse with
  | nil =>
    have : l = [] := by simpa using congrArg List.reverse hrev
    simp [this]
  | cons c rest =>
    rw [List.dropWhile_cons, if_neg (by simp [hl c rest hrev]), ← hrev,
      List.reverse_reverse]

theorem jsTrim_eq_self {l : JStr}
    (hh : ∀ c rest, l = c :: rest → ws c = false)
    (hl : ∀ c rest, l.reverse = c :: rest → ws c = false) :
    jsTrim l = l := by
  rw [jsTrim]
  have h1 : l.dropWhile ws = l := by
    cases l with
    | nil => rfl
    | cons c rest =>
      rw [List.dropWhile_cons, if_neg (by simp [hh c rest rfl])]
  rw [h1]
  exact jsTrimEnd_eq_self hl

theorem splitOnNl_of_no_nl : ∀ l : JStr, '\n' ∉ l → splitOnNl l = [l] := by
  intro l
  induction l with
  | nil => intro; rfl
  | cons c rest ih =>
    intro h
    have hc : ¬c = '\n' := fun hcc => h (by simp [hcc])
    have hr : '\n' ∉ rest := fun hm => h (List.mem_cons_of_mem c hm)
    simp only [splitOnNl, if_neg hc, ih hr]

theorem splitOnNl_append (r : JStr) : ∀ a : JStr, '\n' ∉ a →
    splitOnNl (a ++ '\n' :: r) = a :: splitOnNl r := by
  intro a
  induction a with
  | nil => intro; simp [splitOnNl]
  | cons c cs ih =>
    intro h
    have hc : ¬c = '\n' := fun hcc => h (by simp [hcc])
    have hcs : '\n' ∉ cs := fun hm => h (List.mem_cons_of_mem c hm)
    rw [List.cons_append]
    simp only [splitOnNl, if_neg hc, List.append_eq]
    rw [ih hcs]

theorem splitOnNl_intercalateNl : ∀ ls : List JStr, ls ≠ [] →
    (∀ l ∈ ls, '\n' ∉ l) → splitOnNl (intercalateNl ls) = ls := by
  intro ls
  induction ls with
  | nil => intro h; exact absurd rfl h
  | cons x rest ih =>
    intro _ h
    cases rest with
    | nil =>
      exact splitOnNl_of_no_nl x (h x (List.mem_cons_self _ _))
    | cons y t =>
      rw [show intercalateNl (x :: y :: t) =
          x ++ '\n' :: intercalateNl (y :: t) from rfl,
        splitOnNl_append _ x (h x (List.mem_cons_self _ _)),
        ih (by simp) (fun l hl => h l (List.mem_cons_of_mem x hl))]

/-! ### C1: well-formed numbered headers -/

/-- One well-formed block of the template: a header line
`<digit>. <title>: <desc>` followed by content lines. -/
structure Block where
  digit : Char
  title : JStr
  desc : JStr
  contents : List JStr
deriving DecidableEq

/-- The header line `"<digit>. <title>: <desc>"`. -/
def headerLine (b : Block) : JStr :=
  b.digit :: '.' :: ' ' :: (b.title ++ ':' :: ' ' :: b.desc)

/-- The input lines contributed by one block. -/
def blockLines (b : Block) : List JStr := headerLine b :: b.contents

/-- The section the splitter is expected to build from one block. -/
def toSection (b : Block) : PlanSection :=
  { number := [b.digit], title := b.title, description := b.desc,
    lines := b.desc :: b.contents.map jsTrimEnd, isOrphaned := false }

/-- Well-formedness of a block: a digit header, a non-empty colon-free
trimmed title of `.`-matchable characters, a non-empty trimmed
description of `.`-matchable characters, and content lines that are not
themselves headers and hold no newline. -/
def goodBlock (b : Block) : Prop :=
  b.digit.isDigit = true ∧ ws b.digit = false ∧
  b.title ≠ [] ∧ ':' ∉ b.title ∧ jsTrim b.title = b.title ∧
  b.title.all isDotChar = true ∧
  b.desc ≠ [] ∧ jsTrim b.desc = b.desc ∧ b.desc.all isDotChar = true ∧
  ∀ l ∈ b.contents, matchHeader (jsTrimEnd l) = none ∧ '\n' ∉ l

instance goodBlockDec (b : Block) : Decidable (goodBlock b) :=
  inferInstanceAs (Decidable (_ ∧ _ ∧ _ ∧ _ ∧ _ ∧ _ ∧ _ ∧ _ ∧ _ ∧ _))

theorem headerLine_trimEnd {b : Block} (hb : goodBlock b) :
    jsTrimEnd (headerLine b) = headerLine b := by
  obtain ⟨_, _, _, _, _, _, hdne, hdtr, _, _⟩ := hb
  apply jsTrimEnd_eq_self
  intro c rest hrev
  obtain ⟨c0, d', hd⟩ : ∃ c0 d', b.desc = c0 :: d' := by
    cases hdesc : b.desc with
    | nil => exact absurd hdesc hdne
    | cons c0 d' => exact ⟨c0, d', rfl⟩
  have hsplit : headerLine b =
      (b.digit :: '.' :: ' ' :: b.title ++ [':', ' ']) ++ b.desc := by
    simp [headerLine]
  rw [hsplit, List.reverse_append] at hrev
  obtain ⟨cr, dr, hdr⟩ : ∃ cr dr, b.desc.reverse = cr :: dr := by
    cases hdrev : b.desc.reverse with
    | nil =>
      have : b.desc = [] := by simpa using congrArg List.reverse hdrev
      exact absurd this hdne
    | cons cr dr => exact ⟨cr, dr, rfl⟩
  rw [hdr, List.cons_append] at hrev
  injection hrev with h1 _
  rw [← h1]
  exact rev_head_not_ws_of_trim hdtr hdr

theorem matchHeader_headerLine {b : Block} (hb : goodBlock b) :
    matchHeader (headerLine b) =
      some (b.digit, b.title ++ ':' :: ' ' :: b.desc) := by
  obtain ⟨hdig, hdws, htne, _, httr, htdot, hdne, hdtr, hddot, _⟩ := hb
  obtain ⟨t0, ts, ht⟩ : ∃ t0 ts, b.title = t0 :: ts := by
    cases h : b.title with
    | nil => exact absurd h htne
    | cons t0 ts => exact ⟨t0, ts, rfl⟩
  have ht0 : ws t0 = false := by
    rw [ht] at httr
    exact head_not_ws_of_trim httr
  have hdrop : (headerLine b).dropWhile ws = headerLine b := by
    rw [headerLine, List.dropWhile_cons, if_neg (by simp [hdws])]
  have halldot : (b.title ++ ':' :: ' ' :: b.desc).all isDotChar = true := by
    rw [List.all_append, htdot, List.all_cons, List.all_cons, hddot]
    decide
  have hmw : matchWsDotPlus (' ' :: (b.title ++ ':' :: ' ' :: b.desc)) =
      some (b.title ++ ':' :: ' ' :: b.desc) := by
    rw [matchWsDotPlus, if_pos (by decide), ht, List.cons_append,
      matchWsDotPlus, if_neg (by simp [ht0]),
      if_pos (by rw [← List.cons_append, ← ht]; exact halldot)]
  rw [matchHeader, hdrop, headerLine]
  show (if b.digit.isDigit = true then
      Option.map (fun cap => (b.digit, cap))
        (matchWsDotPlus (' ' :: (b.title ++ ':' :: ' ' :: b.desc)))
    else none) = _
  rw [if_pos hdig, hmw]
  rfl

theorem indexOfColon_append {t : JStr} (r : JStr) (h : ':' ∉ t) :
    indexOfColon (t ++ ':' :: r) = some t.length := by
  induction t with
  | nil => simp [indexOfColon]
  | cons c cs ih =>
    have hc : ¬c = ':' := fun hcc => h (by simp [hcc])
    have hcs : ':' ∉ cs := fun hm => h (List.mem_cons_of_mem c hm)
    rw [List.cons_append, indexOfColon, if_neg hc, ih hcs]
    rfl

theorem splitTitleDesc_eq {b : Block} (hb : goodBlock b) :
    splitTitleDesc (b.title ++ ':' :: ' ' :: b.desc) = (b.title, b.desc) := by
  obtain ⟨_, _, htne, htcol, httr, _, hdne, hdtr, _, _⟩ := hb
  have hidx := indexOfColon_append (' ' :: b.desc) htcol
  have htlen : 0 < b.title.length := by
    cases h : b.title with
    | nil => exact absurd h htne
    | cons _ _ => simp
  rw [splitTitleDesc, hidx]
  simp only [if_pos htlen]
  have htake : (b.title ++ ':' :: ' ' :: b.desc).take b.title.length =
      b.title := List.take_left _ _
  have hdrop : (b.title ++ ':' :: ' ' :: b.desc).drop (b.title.length + 1) =
      ' ' :: b.desc := by
    rw [show b.title.length + 1 = b.title.length + 1 from rfl,
      ← List.drop_drop, List.drop_left]
    rfl
  rw [htake, hdrop, httr]
  have : jsTrim (' ' :: b.desc) = b.desc := by
    rw [jsTrim, List.dropWhile_cons, if_pos (by decide),
      dropWhile_ws_eq_of_trim hdtr]
    exact jsTrimEnd_eq_of_trim hdtr

  rw [this]

/-- The loop body of `parsePlanText` on a well-formed header line, in a
state with an empty orphaned buffer. -/
theorem parseStep_header_clean (sections : List PlanSection)
    (cur : Option PlanSection) (b : Block) (hb : goodBlock b) :
    parseStep ⟨sections, cur, []⟩ (headerLine b) =
      ⟨sections ++ cur.toList,
       some { number := [b.digit], title := b.title, description := b.desc,
              lines := [b.desc], isOrphaned := false }, []⟩ := by
  have hdesclen : 0 < b.desc.length := by
    obtain ⟨_, _, _, _, _, _, hdne, _, _, _⟩ := hb
    cases h : b.desc with
    | nil => exact absurd h hdne
    | cons _ _ => simp
  rw [parseStep, headerLine_trimEnd hb, matchHeader_headerLine hb]
  simp only [List.length_nil, lt_irrefl, decide_False, Bool.false_and,
    Bool.false_eq_true, if_false]
  have hfull : jsTrim (b.title ++ ':' :: ' ' :: b.desc) =
      b.title ++ ':' :: ' ' :: b.desc := by
    obtain ⟨_, _, htne, _, httr, _, hdne, hdtr, _, _⟩ := hb
    apply jsTrim_eq_self
    · intro c rest heq
      obtain ⟨t0, ts, ht⟩ : ∃ t0 ts, b.title = t0 :: ts := by
        cases h : b.title with
        | nil => exact absurd h htne
        | cons t0 ts => exact ⟨t0, ts, rfl⟩
      rw [ht, List.cons_append] at heq
      injection heq with h1 _
      rw [← h1]
      rw [ht] at httr
      exact head_not_ws_of_trim httr
    · intro c rest hrev
      obtain ⟨cr, dr, hdr⟩ : ∃ cr dr, b.desc.reverse = cr :: dr := by
        cases hdrev : b.desc.reverse with
        | nil =>
          have : b.desc = [] := by simpa using congrArg List.reverse hdrev
          exact absurd this hdne
        | cons cr dr => exact ⟨cr, dr, rfl⟩
      have hshape : b.title ++ ':' :: ' ' :: b.desc =
          (b.title ++ [':', ' ']) ++ b.desc := by simp
      rw [hshape, List.reverse_append, hdr, List.cons_append] at hrev
      injection hrev with h1 _
      rw [← h1]
      exact rev_head_not_ws_of_trim hdtr hdr
  rw [hfull, splitTitleDesc_eq hb]
  simp [hdesclen]

/-- The loop body of `parsePlanText` on a non-header line while a
section is open. -/
theorem parseStep_content (sections : List PlanSection) (c : PlanSection)
    (orph : List JStr) (l : JStr) (h : matchHeader (jsTrimEnd l) = none) :
    parseStep ⟨sections, some c, orph⟩ l =
      ⟨sections, some { c with lines := c.lines ++ [jsTrimEnd l] },
       orph⟩ := by
  rw [parseStep, h]

theorem parseFold_contents {cs : List JStr}
    (h : ∀ l ∈ cs, matchHeader (jsTrimEnd l) = none) :
    ∀ (sections : List PlanSection) (c : PlanSection) (orph : List JStr),
      cs.foldl parseStep ⟨sections, some c, orph⟩ =
        ⟨sections, some { c with lines := c.lines ++ cs.map jsTrimEnd },
         orph⟩ := by
  induction cs with
  | nil => intro sections c orph; simp
  | cons l ls ih =>
    intro sections c orph
    rw [List.foldl_cons,
      parseStep_content sections c orph l (h l (List.mem_cons_self _ _)),
      ih (fun x hx => h x (List.mem_cons_of_mem l hx))]
    simp

/-- Folding the splitter over a list of well-formed blocks, starting
with an empty orphaned buffer, appends exactly one section per block. -/
theorem parseFold_blocks : ∀ (bs : List Block), (∀ b ∈ bs, goodBlock b) →
    ∀ (sections : List PlanSection) (cur : Option PlanSection),
      parseFinish (((bs.map blockLines).flatten).foldl parseStep
        ⟨sections, cur, []⟩) =
      sections ++ cur.toList ++ bs.map toSection := by
  intro bs
  induction bs with
  | nil =>
    intro _ sections cur
    simp [parseFinish]
  | cons b rest ih =>
    intro hg sections cur
    have hb : goodBlock b := hg b (List.mem_cons_self _ _)
    obtain ⟨_, _, _, _, _, _, _, _, _, hcont⟩ := id hb
    rw [List.map_cons, List.flatten_cons, List.foldl_append,
      show blockLines b = headerLine b :: b.contents from rfl,
      List.foldl_cons, parseStep_header_clean sections cur b hb,
      parseFold_contents (fun l hl => (hcont l hl).1),
      ih (fun x hx => hg x (List.mem_cons_of_mem b hx))]
    simp [toSection]

/-- For the digits `'1'`–`'8'` of the claim, well-formedness of a block
forbids a newline anywhere in its lines. -/
theorem blockLines_no_nl {b : Block} (hb : goodBlock b) :
    ∀ l ∈ blockLines b, '\n' ∉ l := by
  obtain ⟨_, hdws, _, _, _, htdot, _, _, hddot, hcont⟩ := hb
  intro l hl
  rcases List.mem_cons.mp hl with rfl | hmem
  · intro hmem
    rw [headerLine] at hmem
    rcases List.mem_cons.mp hmem with h1 | hmem
    · rw [← h1] at hdws
      exact absurd hdws (by decide)
    rcases List.mem_cons.mp hmem with h1 | hmem
    · exact absurd h1 (by decide)
    rcases List.mem_cons.mp hmem with h1 | hmem
    · exact absurd h1 (by decide)
    rcases List.mem_append.mp hmem with h1 | hmem
    · have := List.all_eq_true.mp htdot _ h1
      exact absurd this (by decide)
    rcases List.mem_cons.mp hmem with h1 | hmem
    · exact absurd h1 (by decide)
    rcases List.mem_cons.mp hmem with h1 | hmem
    · exact absurd h1 (by decide)
    · have := List.all_eq_true.mp hddot _ hmem
      exact absurd this (by decide)
  · exact (hcont l hmem).2

/-- C1: an input consisting of the eight well-formed numbered headers
`"1. A: x"` … `"8. H: y"` (each optionally followed by non-header
content lines) parses to exactly 8 sections in that numeric label order,
with the title taken before the first colon, the description after it,
and the description stored as the first line. -/
theorem c1_eight_sections (bs : List Block)
    (hgood : ∀ b ∈ bs, goodBlock b)
    (hdigits : bs.map Block.digit = ['1', '2', '3', '4', '5', '6', '7', '8']) :
    parsePlanText (intercalateNl ((bs.map blockLines).flatten)) =
      bs.map toSection ∧
    (bs.map toSection).map PlanSection.number =
      [['1'], ['2'], ['3'], ['4'], ['5'], ['6'], ['7'], ['8']] ∧
    (bs.map toSection).length = 8 := by
  have hlen : bs.length = 8 := by
    have := congrArg List.length hdigits
    simpa using this
  have hne : (bs.map blockLines).flatten ≠ [] := by
    cases bs with
    | nil => simp at hlen
    | cons b rest =>
      simp only [List.map_cons, List.flatten_cons]
      intro h
      rw [show blockLines b = headerLine b :: b.contents from rfl] at h
      simp at h
  have hnonl : ∀ l ∈ (bs.map blockLines).flatten, '\n' ∉ l := by
    intro l hl
    rw [List.mem_flatten] at hl
    obtain ⟨ls, hls, hmem⟩ := hl
    rw [List.mem_map] at hls
    obtain ⟨b, hbmem, rfl⟩ := hls
    exact blockLines_no_nl (hgood b hbmem) l hmem
  constructor
  · rw [parsePlanText, splitOnNl_intercalateNl _ hne hnonl]
    have := parseFold_blocks bs hgood [] none
    simpa using this
  constructor
  · have h1 : (bs.map toSection).map PlanSection.number =
        (bs.map Block.digit).map (fun d => [d]) := by
      simp [toSection]
    rw [h1, hdigits]
    rfl
  · simp [hlen]

/-- Witness input for `c1_eight_sections`: the eight headers with short
titles and descriptions, one with a content line. -/
def c1Blocks : List Block :=
  [⟨'1', "Your Starting Point (Today)".data, "Neck pain at rest".data, []⟩,
   ⟨'2', "Assessment Findings".data, "Muscle tightness".data,
     ["In plain English".data]⟩,
   ⟨'3', "Goals".data, "Three goals".data, []⟩,
   ⟨'4', "Key Actions".data, "Three actions".data, []⟩,
   ⟨'5', "Treatment Plan".data, "Two phases".data, []⟩,
   ⟨'6', "Progress".data, "Measures".data, []⟩,
   ⟨'7', "Next 72 Hours".data, "Two points".data, []⟩,
   ⟨'8', "Appointments".data, "Schedule".data, []⟩]

theorem c1_eight_sections_witness :
    parsePlanText (intercalateNl ((c1Blocks.map blockLines).flatten)) =
      c1Blocks.map toSection ∧
    (c1Blocks.map toSection).map PlanSection.number =
      [['1'], ['2'], ['3'], ['4'], ['5'], ['6'], ['7'], ['8']] ∧
    (c1Blocks.map toSection).length = 8 :=
  c1_eight_sections c1Blocks (by decide) (by decide)

/-! ### C9: the orphaned-content scenario -/

/-- C9: the documented orphaned-content input yields first the synthetic
`Additional Notes` section holding only the clinician note (the intro
phrase filtered out and the blank line dropped), then section 1. -/
theorem c9_orphaned_scenario :
    parsePlanText
        "Here is your personalized treatment plan.\n\nSome clinician note.\n1. Starting Point: ...".data =
      [{ number := "0".data, title := "Additional Notes".data,
         description := [], lines := ["Some clinician note.".data],
         isOrphaned := true },
       { number := "1".data, title := "Starting Point".data,
         description := "...".data, lines := ["...".data],
         isOrphaned := false }] := by
  decide

/-! ### C7: inputs without numeric headers, and the raw-paragraph
fallback -/

theorem parseFold_noheader : ∀ (ls : List JStr),
    (∀ l ∈ ls, matchHeader (jsTrimEnd l) = none) →
    ∀ orph : List JStr,
      ls.foldl parseStep ⟨[], none, orph⟩ =
        ⟨[], none,
         orph ++ (ls.map jsTrimEnd).filter
           (fun l => 0 < (jsTrim l).length)⟩ := by
  intro ls
  induction ls with
  | nil => intro _ orph; simp
  | cons l rest ih =>
    intro h orph
    have hl := h l (List.mem_cons_self _ _)
    have hstep : parseStep ⟨[], none, orph⟩ l =
        ⟨[], none,
         orph ++ if 0 < (jsTrim (jsTrimEnd l)).length
           then [jsTrimEnd l] else []⟩ := by
      rw [parseStep, hl]
      by_cases hc : 0 < (jsTrim (jsTrimEnd l)).length
      · simp [hc]
      · simp [hc]
    rw [List.foldl_cons, hstep,
      ih (fun x hx => h x (List.mem_cons_of_mem l hx))]
    by_cases hc : 0 < (jsTrim (jsTrimEnd l)).length
    · simp [List.filter_cons, hc]
    · simp [List.filter_cons, hc]

/-- C7: with no header line anywhere, the splitter yields the lone
orphaned section when a non-blank non-intro line exists and zero
sections otherwise; and whenever it yields zero sections the assembler
falls back to rendering the whole escaped input as one paragraph. -/
theorem c7_no_headers (pt pn tn : JStr) (qrGen : JStr → Option JStr)
    (today : JStr)
    (hnone : ∀ l ∈ splitOnNl pt, matchHeader (jsTrimEnd l) = none) :
    (parsePlanText pt =
      if (((splitOnNl pt).map jsTrimEnd).filter
            (fun l => 0 < (jsTrim l).length && !isIntroPhrase l)).isEmpty
      then []
      else [{ number := "0".data, title := "Additional Notes".data,
              description := [],
              lines := ((splitOnNl pt).map jsTrimEnd).filter
                (fun l => 0 < (jsTrim l).length && !isIntroPhrase l),
              isOrphaned := true }]) ∧
    (parsePlanText pt = [] →
      renderStructuredHtml pt pn tn qrGen today =
        docPre pn tn (qrBlockHtml tn qrGen) today ++ fallbackMain pt ++
          docPost today) := by
  constructor
  · rw [parsePlanText, parseFold_noheader _ hnone []]
    rw [parseFinish]
    simp only [List.nil_append, Option.toList_none, List.append_nil]
    have hff : (((splitOnNl pt).map jsTrimEnd).filter
          (fun l => 0 < (jsTrim l).length)).filter
          (fun l => 0 < (jsTrim l).length && !isIntroPhrase l) =
        ((splitOnNl pt).map jsTrimEnd).filter
          (fun l => 0 < (jsTrim l).length && !isIntroPhrase l) := by
      rw [List.filter_filter]
      apply List.filter_congr
      intro a _
      by_cases h1 : 0 < (jsTrim a).length
      · simp [h1]
      · simp [h1]
    set base := ((splitOnNl pt).map jsTrimEnd).filter
      (fun l => 0 < (jsTrim l).length) with hbase
    by_cases hb : 0 < base.length
    · rw [if_pos hb, finalizeOrphaned, hff]
      by_cases hm : 0 < (((splitOnNl pt).map jsTrimEnd).filter
          (fun l => 0 < (jsTrim l).length && !isIntroPhrase l)).length
      · rw [if_pos hm, if_neg (by
          intro hempty
          rw [List.isEmpty_iff] at hempty
          rw [hempty] at hm
          simp at hm)]
      · rw [if_neg hm, if_pos (by
          rw [List.isEmpty_iff]
          cases hh : ((splitOnNl pt).map jsTrimEnd).filter
            (fun l => 0 < (jsTrim l).length && !isIntroPhrase l) with
          | nil => rfl
          | cons x xs => rw [hh] at hm; simp at hm)]
    · rw [if_neg hb]
      have hbe : base = [] := by
        cases hh : base with
        | nil => rfl
        | cons x xs => rw [hh] at hb; simp at hb
      have : ((splitOnNl pt).map jsTrimEnd).filter
          (fun l => 0 < (jsTrim l).length && !isIntroPhrase l) = [] := by
        rw [← hff, hbe]
        rfl
      rw [this]
      rfl
  · intro hz
    rw [renderStructuredHtml]
    rw [hz]
    rfl

/-- Witness input for `c7_no_headers`: the empty string. -/
theorem c7_no_headers_witness :
    (parsePlanText [] =
      if ((((splitOnNl []).map jsTrimEnd).filter
            (fun l => 0 < (jsTrim l).length && !isIntroPhrase l))).isEmpty
      then []
      else [{ number := "0".data, title := "Additional Notes".data,
              description := [],
              lines := ((splitOnNl []).map jsTrimEnd).filter
                (fun l => 0 < (jsTrim l).length && !isIntroPhrase l),
              isOrphaned := true }]) ∧
    (parsePlanText [] = [] →
      renderStructuredHtml [] [] [] (fun _ => none) "01/02/2026".data =
        docPre [] [] (qrBlockHtml [] (fun _ => none)) "01/02/2026".data ++
          fallbackMain [] ++ docPost "01/02/2026".data) :=
  c7_no_headers [] [] [] (fun _ => none) "01/02/2026".data (by decide)

/-! ### C8: structural invariants of the section list -/

theorem matchHeader_digit {l : JStr} {d : Char} {cap : JStr}
    (h : matchHeader l = some (d, cap)) : d.isDigit = true := by
  rw [matchHeader] at h
  split at h
  · rename_i d2 tail2 heq
    split at h
    · rename_i hdig
      cases hmw : matchWsDotPlus tail2 with
      | none => rw [hmw] at h; simp at h
      | some cap2 =>
        rw [hmw] at h
        simp only [Option.map_some'] at h
        injection h with h1
        injection h1 with h2 _
        rw [← h2]
        exact hdig
    · cases h
  · cases h

theorem finalizeOrphaned_len (o : List JStr) :
    (finalizeOrphaned o).length ≤ 1 := by
  rw [finalizeOrphaned]
  split <;> simp

theorem finalizeOrphaned_mem (o : List JStr) :
    ∀ s ∈ finalizeOrphaned o, s.isOrphaned = true ∧
      s.number = "0".data ∧ s.title = "Additional Notes".data := by
  rw [finalizeOrphaned]
  split
  · intro s hs
    rw [List.mem_singleton] at hs
    subst hs
    exact ⟨rfl, rfl, rfl⟩
  · intro s hs
    cases hs

theorem parseStep_header_flush (secs : List PlanSection)
    (orph : List JStr) {l : JStr} {d : Char} {cap : JStr}
    (hm : matchHeader (jsTrimEnd l) = some (d, cap))
    (ho : 0 < orph.length) :
    parseStep ⟨secs, none, orph⟩ l =
      ⟨secs ++ finalizeOrphaned orph,
       some ⟨[d], (splitTitleDesc (jsTrim cap)).1,
         (splitTitleDesc (jsTrim cap)).2,
         (if 0 < (splitTitleDesc (jsTrim cap)).2.length
          then [(splitTitleDesc (jsTrim cap)).2] else []), false⟩,
       []⟩ := by
  rw [parseStep, hm]
  rw [if_pos (by simp [ho])]
  simp

theorem parseStep_header_noflush (secs : List PlanSection)
    (cur : Option PlanSection) {l : JStr} {d : Char} {cap : JStr}
    (hm : matchHeader (jsTrimEnd l) = some (d, cap)) :
    parseStep ⟨secs, cur, []⟩ l =
      ⟨secs ++ cur.toList,
       some ⟨[d], (splitTitleDesc (jsTrim cap)).1,
         (splitTitleDesc (jsTrim cap)).2,
         (if 0 < (splitTitleDesc (jsTrim cap)).2.length
          then [(splitTitleDesc (jsTrim cap)).2] else []), false⟩,
       []⟩ := by
  rw [parseStep, hm]
  rw [if_neg (by simp)]

theorem parseStep_noheader_nocur (secs : List PlanSection)
    (orph : List JStr) {l : JStr}
    (hm : matchHeader (jsTrimEnd l) = none) :
    parseStep ⟨secs, none, orph⟩ l =
      if 0 < (jsTrim (jsTrimEnd l)).length then
        ⟨secs, none, orph ++ [jsTrimEnd l]⟩
      else ⟨secs, none, orph⟩ := by
  rw [parseStep, hm]

/-- The state invariant of the splitter loop: before the first header
the section list is empty; after it the orphaned buffer is empty; at
most the first finished section is orphaned; orphaned sections are the
synthetic `Additional Notes` with number `"0"`; every other section
(and the open one) carries a single-digit number. -/
abbrev InvP (st : ParseState) : Prop :=
  (st.current = none → st.sections = []) ∧
  (∀ c, st.current = some c → st.orphaned = []) ∧
  (∀ sec ∈ st.sections.drop 1, sec.isOrphaned = false) ∧
  (∀ sec ∈ st.sections, sec.isOrphaned = true →
    sec.number = "0".data ∧ sec.title = "Additional Notes".data) ∧
  (∀ sec ∈ st.sections, sec.isOrphaned = false →
    ∃ d, sec.number = [d] ∧ d.isDigit = true) ∧
  (∀ c, st.current = some c → c.isOrphaned = false ∧
    ∃ d, c.number = [d] ∧ d.isDigit = true)

theorem InvP_mk (a : List PlanSection) (b : Option PlanSection)
    (c : List JStr) :
    InvP ⟨a, b, c⟩ ↔
      ((b = none → a = []) ∧
       (∀ x, b = some x → c = []) ∧
       (∀ sec ∈ a.drop 1, sec.isOrphaned = false) ∧
       (∀ sec ∈ a, sec.isOrphaned = true →
         sec.number = "0".data ∧ sec.title = "Additional Notes".data) ∧
       (∀ sec ∈ a, sec.isOrphaned = false →
         ∃ d, sec.number = [d] ∧ d.isDigit = true) ∧
       (∀ x, b = some x → x.isOrphaned = false ∧
         ∃ d, x.number = [d] ∧ d.isDigit = true)) := Iff.rfl

theorem parseStep_inv {st : ParseState} {l : JStr} (h : InvP st) :
    InvP (parseStep st l) := by
  obtain ⟨secs, cur, orph⟩ := st
  rw [InvP_mk] at h
  obtain ⟨h1, h2, h3, h4, h5, h6⟩ := h
  cases hm : matchHeader (jsTrimEnd l) with
  | some dc =>
    obtain ⟨d, cap⟩ := dc
    have hdig : d.isDigit = true := matchHeader_digit hm
    cases hcur : cur with
    | none =>
      have hsecs : secs = [] := h1 hcur
      subst hsecs
      by_cases ho : 0 < orph.length
      · rw [parseStep_header_flush [] orph hm ho, InvP_mk]
        refine ⟨fun hc => Option.noConfusion hc, fun c hc => rfl, ?_, ?_, ?_, ?_⟩
        · intro sec hsec
          simp only [List.nil_append] at hsec
          have hnil : (finalizeOrphaned orph).drop 1 = [] :=
            List.drop_eq_nil_of_le (finalizeOrphaned_len orph)
          rw [hnil] at hsec
          cases hsec
        · intro sec hsec horp
          simp only [List.nil_append] at hsec
          exact (finalizeOrphaned_mem orph sec hsec).2
        · intro sec hsec hnorp
          simp only [List.nil_append] at hsec
          rw [(finalizeOrphaned_mem orph sec hsec).1] at hnorp
          cases hnorp
        · intro c hc
          injection hc with hc
          rw [← hc]
          exact ⟨rfl, d, rfl, hdig⟩
      · have horph : orph = [] := by
          cases horp : orph with
          | nil => rfl
          | cons x xs => rw [horp] at ho; simp at ho
        subst horph
        rw [parseStep_header_noflush [] none hm, InvP_mk]
        refine ⟨fun hc => Option.noConfusion hc, fun c hc => rfl, ?_, ?_, ?_, ?_⟩
        · intro sec hsec
          cases hsec
        · intro sec hsec
          cases hsec
        · intro sec hsec
          cases hsec
        · intro c hc
          injection hc with hc
          rw [← hc]
          exact ⟨rfl, d, rfl, hdig⟩
    | some c0 =>
      have horph : orph = [] := h2 c0 hcur
      subst horph
      rw [parseStep_header_noflush secs (some c0) hm, InvP_mk]
      refine ⟨fun hc => Option.noConfusion hc, fun c hc => rfl, ?_, ?_, ?_, ?_⟩
      · intro sec hsec
        simp only [Option.toList_some] at hsec
        cases hsecs : secs with
        | nil =>
          rw [hsecs] at hsec
          simp only [List.nil_append, List.drop_succ_cons,
            List.drop_nil] at hsec
          cases hsec
        | cons s0 srest =>
          rw [hsecs] at hsec
          rw [List.cons_append, List.drop_succ_cons] at hsec
          rcases List.mem_append.mp hsec with hmem | hmem
          · exact h3 sec (by rw [hsecs]; simpa using hmem)
          · rw [List.mem_singleton] at hmem
            subst hmem
            exact (h6 _ hcur).1
      · intro sec hsec horp
        simp only [Option.toList_some] at hsec
        rcases List.mem_append.mp hsec with hmem | hmem
        · exact h4 sec hmem horp
        · rw [List.mem_singleton] at hmem
          subst hmem
          rw [(h6 _ hcur).1] at horp
          cases horp
      · intro sec hsec hnorp
        simp only [Option.toList_some] at hsec
        rcases List.mem_append.mp hsec with hmem | hmem
        · exact h5 sec hmem hnorp
        · rw [List.mem_singleton] at hmem
          subst hmem
          exact (h6 _ hcur).2
      · intro c hc
        injection hc with hc
        rw [← hc]
        exact ⟨rfl, d, rfl, hdig⟩
  | none =>
    cases hcur : cur with
    | some c0 =>
      rw [parseStep_content secs c0 orph l hm, InvP_mk]
      refine ⟨fun hc => Option.noConfusion hc, fun c hc => h2 c0 hcur, h3, h4, h5, ?_⟩
      intro c hc
      injection hc with hc
      rw [← hc]
      exact h6 c0 hcur
    | none =>
      rw [parseStep_noheader_nocur secs orph hm]
      by_cases hc : 0 < (jsTrim (jsTrimEnd l)).length
      · rw [if_pos hc, InvP_mk]
        exact ⟨fun _ => h1 hcur, fun c hcon => Option.noConfusion hcon, h3, h4, h5,
          fun c hcon => Option.noConfusion hcon⟩
      · rw [if_neg hc, InvP_mk]
        exact ⟨fun _ => h1 hcur, fun c hcon => Option.noConfusion hcon, h3, h4, h5,
          fun c hcon => Option.noConfusion hcon⟩

theorem parseFold_inv : ∀ (ls : List JStr) (st : ParseState),
    InvP st → InvP (ls.foldl parseStep st) := by
  intro ls
  induction ls with
  | nil => intro st h; exact h
  | cons l rest ih =>
    intro st h
    exact ih _ (parseStep_inv h)

theorem parseFinish_inv : ∀ st : ParseState, InvP st →
    (∀ sec ∈ (parseFinish st).drop 1, sec.isOrphaned = false) ∧
    (∀ sec ∈ parseFinish st, sec.isOrphaned = true →
      sec.number = "0".data ∧ sec.title = "Additional Notes".data) ∧
    (∀ sec ∈ parseFinish st, sec.isOrphaned = false →
      ∃ d, sec.number = [d] ∧ d.isDigit = true) := by
  intro st hinv
  obtain ⟨secs, cur, orph⟩ := st
  rw [InvP_mk] at hinv
  obtain ⟨h1, h2, h3, h4, h5, h6⟩ := hinv
  rw [parseFinish]
  simp only
  cases hcur : cur with
  | none =>
    have hsecs : secs = [] := h1 hcur
    subst hsecs
    simp only [List.nil_append, Option.toList_none, List.append_nil]
    by_cases ho : 0 < orph.length
    · rw [if_pos ho]
      refine ⟨?_, ?_, ?_⟩
      · intro sec hsec
        have hnil : (finalizeOrphaned orph).drop 1 = [] :=
          List.drop_eq_nil_of_le (finalizeOrphaned_len orph)
        rw [hnil] at hsec
        cases hsec
      · intro sec hsec _
        exact (finalizeOrphaned_mem orph sec hsec).2
      · intro sec hsec hnorp
        rw [(finalizeOrphaned_mem orph sec hsec).1] at hnorp
        cases hnorp
    · rw [if_neg ho]
      exact ⟨fun sec hsec => absurd hsec (List.not_mem_nil sec),
        fun sec hsec => absurd hsec (List.not_mem_nil sec),
        fun sec hsec => absurd hsec (List.not_mem_nil sec)⟩
  | some c0 =>
    have horph : orph = [] := h2 c0 hcur
    subst horph
    simp only [List.length_nil, lt_irrefl, if_false, List.nil_append,
      List.append_nil, Option.toList_some]
    refine ⟨?_, ?_, ?_⟩
    · intro sec hsec
      cases hsecs : secs with
      | nil =>
        rw [hsecs] at hsec
        simp only [List.nil_append, List.drop_succ_cons,
          List.drop_nil] at hsec
        cases hsec
      | cons s0 srest =>
        rw [hsecs] at hsec
        rw [List.cons_append, List.drop_succ_cons] at hsec
        rcases List.mem_append.mp hsec with hmem | hmem
        · exact h3 sec (by rw [hsecs]; simpa using hmem)
        · rw [List.mem_singleton] at hmem
          subst hmem
          exact (h6 _ hcur).1
    · intro sec hsec horp
      rcases List.mem_append.mp hsec with hmem | hmem
      · exact h4 sec hmem horp
      · rw [List.mem_singleton] at hmem
        subst hmem
        rw [(h6 _ hcur).1] at horp
        cases horp
    · intro sec hsec hnorp
      rcases List.mem_append.mp hsec with hmem | hmem
      · exact h5 sec hmem hnorp
      · rw [List.mem_singleton] at hmem
        subst hmem
        exact (h6 _ hcur).2

/-- Claim C8 as written is false: the header pattern `(\d)` also accepts
`0`, so `"0. Hi: x"` produces a section numbered `"0"` that is not the
synthetic orphaned section. -/
theorem c8_counterexample :
    parsePlanText "0. Hi: x".data =
      [{ number := "0".data, title := "Hi".data, description := "x".data,
         lines := ["x".data], isOrphaned := false }] ∧
    ∃ sec ∈ parsePlanText "0. Hi: x".data,
      sec.number = "0".data ∧ sec.isOrphaned = false := by
  decide

/-- C8 (amended): for every input, at most one section is orphaned and
it can only be the first; an orphaned section is the synthetic
`Additional Notes` section with number `"0"`; and every non-orphaned
section has as its number a single decimal digit taken from its header (the
code also accepts digits `0` and `9` there). -/
theorem c8_invariants (pt : JStr) :
    (∀ sec ∈ (parsePlanText pt).drop 1, sec.isOrphaned = false) ∧
    (∀ sec ∈ parsePlanText pt, sec.isOrphaned = true →
      sec.number = "0".data ∧ sec.title = "Additional Notes".data) ∧
    (∀ sec ∈ parsePlanText pt, sec.isOrphaned = false →
      ∃ d, sec.number = [d] ∧ d.isDigit = true) := by
  have hinv0 : InvP ⟨[], none, []⟩ := by
    rw [InvP_mk]
    refine ⟨fun _ => rfl, fun c hc => Option.noConfusion hc, ?_, ?_, ?_,
      fun c hc => Option.noConfusion hc⟩
    · intro sec hsec
      exact absurd hsec (List.not_mem_nil sec)
    · intro sec hsec
      exact absurd hsec (List.not_mem_nil sec)
    · intro sec hsec
      exact absurd hsec (List.not_mem_nil sec)
  exact parseFinish_inv _ (parseFold_inv (splitOnNl pt) _ hinv0)

/-- Witness for `c8_invariants`, instantiating its inner hypotheses at a
parse that yields both an orphaned and a numbered section. -/
theorem c8_invariants_witness :
    ({ number := "0".data, title := "Additional Notes".data,
       description := [], lines := ["A note".data],
       isOrphaned := true } : PlanSection).number = "0".data ∧
    (∃ d, ({ number := "1".data, title := "A".data,
             description := "x".data, lines := ["x".data],
             isOrphaned := false } : PlanSection).number = [d] ∧
       d.isDigit = true) :=
  ⟨((c8_invariants "A note\n1. A: x".data).2.1
      ⟨"0".data, "Additional Notes".data, [], ["A note".data], true⟩
      (by decide) rfl).1,
   (c8_invariants "A note\n1. A: x".data).2.2
      ⟨"1".data, "A".data, "x".data, ["x".data], false⟩
      (by decide) rfl⟩

/-! ### C2: single escaping of titles into the final document -/

theorem listSectionHtmlA_contains (num title lo lc inner : JStr) :
    containsSub (escapeHtml title)
      (listSectionHtmlA num title lo lc inner) = true := by
  rw [listSectionHtmlA]
  exact containsSub_appR _ (containsSub_appR _ (containsSub_appR _
    (containsSub_appR _ (containsSub_appR _ (containsSub_appL _
      (containsSub_self _))))))

theorem listSectionHtmlB_contains (num title lo lc inner : JStr) :
    containsSub (escapeHtml title)
      (listSectionHtmlB num title lo lc inner) = true := by
  rw [listSectionHtmlB]
  exact containsSub_appR _ (containsSub_appR _ (containsSub_appR _
    (containsSub_appR _ (containsSub_appR _ (containsSub_appL _
      (containsSub_self _))))))

/-- Every dispatch branch of the per-section renderer emits the escaped
section title. -/
theorem renderSection_contains_title (sec : PlanSection) :
    containsSub (escapeHtml sec.title) (renderSection sec) = true := by
  rw [renderSection]
  split_ifs with h1 h2 h3 h4
  · rw [renderOrphanedSection]
    exact containsSub_appR _ (containsSub_appR _ (containsSub_appR _
      (containsSub_appL _ (containsSub_self _))))
  · rw [renderTreatmentPlanSection, tpOpenHtml]
    exact containsSub_appR _ (containsSub_appR _ (containsSub_appR _
      (containsSub_appL _ (containsSub_self _))))
  · rw [renderGoalsSection]
    split
    · exact listSectionHtmlA_contains _ _ _ _ _
    · exact listSectionHtmlB_contains _ _ _ _ _
  · rw [renderKeyActionsSection]
    split
    · exact listSectionHtmlA_contains _ _ _ _ _
    · exact listSectionHtmlB_contains _ _ _ _ _
  · rw [renderGenericSection]
    exact containsSub_appR _ (containsSub_appR _ (containsSub_appR _
      (containsSub_appL _ (containsSub_self _))))

theorem containsSub_intercalateNl {a : JStr} : ∀ ls : List JStr,
    a ∈ ls → containsSub a (intercalateNl ls) = true := by
  intro ls
  induction ls with
  | nil => intro h; cases h
  | cons x rest ih =>
    intro h
    cases rest with
    | nil =>
      rcases List.mem_cons.mp h with rfl | hmem
      · exact containsSub_self a
      · cases hmem
    | cons y t =>
      rw [show intercalateNl (x :: y :: t) =
        x ++ '\n' :: intercalateNl (y :: t) from rfl]
      rcases List.mem_cons.mp h with rfl | hmem
      · exact containsSub_appR _ (containsSub_self a)
      · exact containsSub_appL _ (containsSub_cons_of '\n' (ih hmem))

theorem renderSection_pos (sec : PlanSection) :
    0 < (renderSection sec).length := by
  rw [renderSection]
  split_ifs with h1 h2 h3 h4
  · rw [renderOrphanedSection]; simp
  · rw [renderTreatmentPlanSection, tpOpenHtml]; simp
  · rw [renderGoalsSection]
    split <;> first
      | (rw [listSectionHtmlA]; simp)
      | (rw [listSectionHtmlB]; simp)
  · rw [renderKeyActionsSection]
    split <;> first
      | (rw [listSectionHtmlA]; simp)
      | (rw [listSectionHtmlB]; simp)
  · rw [renderGenericSection]; simp

theorem sectionHtml_pos {sec : PlanSection} {secs : List PlanSection}
    (hmem : sec ∈ secs) :
    0 < (intercalateNl (secs.map renderSection)).length := by
  cases secs with
  | nil => cases hmem
  | cons s rest =>
    cases rest with
    | nil =>
      rw [List.map_cons, List.map_nil,
        show intercalateNl [renderSection s] = renderSection s from rfl]
      exact renderSection_pos s
    | cons s2 t =>
      rw [List.map_cons,
        show intercalateNl (renderSection s :: (s2 :: t).map renderSection) =
          renderSection s ++
            '\n' :: intercalateNl ((s2 :: t).map renderSection) from rfl]
      have := renderSection_pos s
      simp only [List.length_append]
      omega

/-- The rendering of every parsed section appears in the assembled
document. -/
theorem doc_contains_section {pt pn tn today : JStr}
    {qrGen : JStr → Option JStr} {sec : PlanSection}
    (hmem : sec ∈ parsePlanText pt) :
    containsSub (renderSection sec)
      (renderStructuredHtml pt pn tn qrGen today) = true := by
  rw [renderStructuredHtml]
  rw [if_pos (sectionHtml_pos hmem)]
  exact containsSub_appR _ (containsSub_appL _
    (containsSub_intercalateNl _ (List.mem_map_of_mem renderSection hmem)))

/-- Claim C2 as written is false: a section title that already holds the
escaped entity `&amp;` is escaped again, so the final document does
contain `&amp;amp;` for a title containing `&`. -/
theorem c2_counterexample :
    (∃ sec ∈ parsePlanText "1. Costs &amp; Fees: x".data,
      '&' ∈ sec.title) ∧
    containsSub "&amp;amp;".data
      (renderStructuredHtml "1. Costs &amp; Fees: x".data [] []
        (fun _ => none) []) = true := by
  constructor
  · exact ⟨⟨"1".data, "Costs &amp; Fees".data, "x".data, ["x".data],
      false⟩, by decide, by decide⟩
  · have hsec : (⟨"1".data, "Costs &amp; Fees".data, "x".data,
        ["x".data], false⟩ : PlanSection) ∈
        parsePlanText "1. Costs &amp; Fees: x".data := by decide
    have h1 : containsSub "&amp;".data
        (stripBold "Costs &amp; Fees".data) = true := by decide
    have h2 := ampamp_in_escapeHtml h1
    exact containsSub_trans h2 (containsSub_trans
      (renderSection_contains_title ⟨"1".data, "Costs &amp; Fees".data,
        "x".data, ["x".data], false⟩) (doc_contains_section hsec))

/-- C2 (amended): escaping strips `**` and then escapes `&`, `<`, `>`
once per leaf; for a parsed section title containing `&` whose
bold-stripped text does not already hold `&amp;`, the escaped title
contains `&amp;` and never `&amp;amp;`, the final document contains that
`&amp;`, and `**bold**` markers are stripped rather than escaped. -/
theorem c2_escaping (pt pn tn today : JStr) (qrGen : JStr → Option JStr)
    (sec : PlanSection) (hmem : sec ∈ parsePlanText pt)
    (hamp : '&' ∈ sec.title)
    (hpre : containsSub "&amp;".data (stripBold sec.title) = false) :
    (containsSub "&amp;".data (escapeHtml sec.title) = true ∧
     containsSub "&amp;amp;".data (escapeHtml sec.title) = false ∧
     containsSub "&amp;".data
       (renderStructuredHtml pt pn tn qrGen today) = true) ∧
    (∀ t : JStr, '*' ∉ t →
      escapeHtml ("**".data ++ t ++ "**".data) = escapeHtml t) := by
  constructor
  · refine ⟨amp_in_escapeHtml hamp, ?_, ?_⟩
    · rw [Bool.eq_false_iff]
      intro hcc
      rw [ampamp_escapeHtml_back hcc] at hpre
      cases hpre
    · exact containsSub_trans (amp_in_escapeHtml hamp)
        (containsSub_trans (renderSection_contains_title sec)
          (doc_contains_section hmem))
  · intro t ht
    have hsb : stripBold t = t := by
      have h0 := stripBold_append_of_no_star t [] ht
      rw [show stripBold ([] : JStr) = [] from rfl, List.append_nil] at h0
      exact h0
    have hshape : "**".data ++ t ++ "**".data =
        '*' :: '*' :: (t ++ "**".data) := by
      rw [List.append_assoc]
      rfl
    rw [escapeHtml, escapeHtml, hshape,
      show stripBold ('*' :: '*' :: (t ++ "**".data)) =
        stripBold (t ++ "**".data) from rfl,
      stripBold_append_of_no_star t "**".data ht,
      show stripBold "**".data = [] from rfl, List.append_nil, hsb]

/-- Witness for `c2_escaping`: a title with a bare `&` and a `**bold**`
fragment. -/
theorem c2_escaping_witness :
    (containsSub "&amp;".data
        (escapeHtml "Costs & Fees".data) = true ∧
     containsSub "&amp;amp;".data
        (escapeHtml "Costs & Fees".data) = false ∧
     containsSub "&amp;".data
       (renderStructuredHtml "1. Costs & Fees: x".data [] []
         (fun _ => none) []) = true) ∧
    escapeHtml ("**".data ++ "bold".data ++ "**".data) =
      escapeHtml "bold".data :=
  ⟨(c2_escaping "1. Costs & Fees: x".data [] [] [] (fun _ => none)
      ⟨"1".data, "Costs & Fees".data, "x".data, ["x".data], false⟩
      (by decide) (by decide) (by decide)).1,
   (c2_escaping "1. Costs & Fees: x".data [] [] [] (fun _ => none)
      ⟨"1".data, "Costs & Fees".data, "x".data, ["x".data], false⟩
      (by decide) (by decide) (by decide)).2 "bold".data (by decide)⟩

end GCPlan
